import Mathlib

/-!
# Verification of the ShortCircuitCalc typed-configuration core

Shallow embedding of the typed configuration persistence engine of the
ShortCircuitCalc repository: the value codec (`TypesManager` /
`_TypesHandler` in `tools/tools.py`), the flat-file configuration store
(`config_manager`), the connection resolver (`db_access`) and the
transaction scope (`session_scope`).

Modelling conventions:
* Python scalar values are the inductive `PyVal`; container literals
  (tuples/lists/sets/dicts) are outside the modelled value universe,
  matching the spec's closed TypedValue set.
* Python `float` values are represented by their shortest-repr token
  (Python guarantees `float(repr(f)) == f`); the codec never performs
  float arithmetic, it only converts floats to and from text.
* Python `decimal.Decimal` finite values are represented exactly as in
  `Decimal.as_tuple()`: a sign, a digit list and an exponent.
* Raised exceptions are modelled with `Except PyErr`.
-/

set_option maxRecDepth 4000

namespace SCC

/-- Exception kinds raised by the modelled code paths. -/
inductive PyErr where
  | typeError
  | syntaxError
  | invalidOperation
  | keyError
  | fileNotFoundError
  | attributeError
  | operationalError
  | otherError
deriving DecidableEq, Repr

/-- Python `decimal.Decimal` finite value, exactly the data of
`Decimal.as_tuple()`: `sign` (`true` = negative), coefficient digits
(most significant first) and exponent. -/
structure Dec where
  sign  : Bool
  coeff : List Nat
  exp   : Int
deriving DecidableEq, Repr

/-- A Python scalar runtime value: the spec's TypedValue set
{text, boolean, integer, float, decimal, absent}. -/
inductive PyVal where
  | str   (s : String)
  | bool  (b : Bool)
  | int   (n : Int)
  | float (t : String)
  | dec   (d : Dec)
  | none
deriving DecidableEq, Repr

/-! ## Decimal digit utilities -/

/-- Numeric value of a digit character. -/
def charDigit (c : Char) : Nat := c.toNat - 48

/-- Digit character of a digit value. -/
def digitChar (k : Nat) : Char := Char.ofNat (k + 48)

/-- Digit expansion with structural fuel (any fuel at least the digit
count is exact; the fuel argument only makes the recursion structural so
that the kernel can evaluate it). -/
def natDigitsF : Nat → Nat → List Nat
  | 0, n => [n]
  | fuel + 1, n => if n < 10 then [n] else natDigitsF fuel (n / 10) ++ [n % 10]

/-- Decimal digits of `n`, most significant first (`natDigits 0 = [0]`). -/
def natDigits (n : Nat) : List Nat := natDigitsF n n

/-- Value of a most-significant-first digit list. -/
def digitsVal (ds : List Nat) : Nat :=
  ds.foldl (fun acc d => 10 * acc + d) 0

/-- Python `str` of a nonnegative integer. -/
def pyNatStr (n : Nat) : List Char :=
  (natDigits n).map digitChar

/-- Python `str` of an integer (`%d` formatting). -/
def pyIntStr (i : Int) : List Char :=
  if i < 0 then '-' :: pyNatStr i.natAbs else pyNatStr i.natAbs

theorem natDigitsF_pos_len (fuel n : Nat) : (natDigitsF fuel n).length ≥ 1 := by
  cases fuel with
  | zero => simp [natDigitsF]
  | succ fuel =>
    unfold natDigitsF
    split
    · simp
    · simp

theorem natDigits_pos_len (n : Nat) : (natDigits n).length ≥ 1 :=
  natDigitsF_pos_len n n

theorem natDigitsF_lt_ten (fuel : Nat) :
    ∀ n, n ≤ fuel → ∀ d ∈ natDigitsF fuel n, d < 10 := by
  induction fuel with
  | zero =>
    intro n hn d hd
    simp [natDigitsF] at hd
    omega
  | succ fuel ih =>
    intro n hn d hd
    unfold natDigitsF at hd
    split at hd
    · next h => simp at hd; omega
    · next h =>
      rw [List.mem_append] at hd
      rcases hd with hd | hd
      · have hdiv : n / 10 ≤ fuel := by
          have : n / 10 < n := Nat.div_lt_self (by omega) (by omega)
          omega
        exact ih (n / 10) hdiv d hd
      · simp at hd
        omega

theorem natDigits_lt_ten (n : Nat) : ∀ d ∈ natDigits n, d < 10 :=
  natDigitsF_lt_ten n n (le_refl n)

theorem digitsVal_append (a b : List Nat) :
    digitsVal (a ++ b) = digitsVal b + digitsVal a * 10 ^ b.length := by
  induction b generalizing a with
  | nil => simp [digitsVal]
  | cons x xs ih =>
    have h1 : a ++ x :: xs = (a ++ [x]) ++ xs := by simp
    rw [h1, ih (a ++ [x])]
    have h2 : [x] ++ xs = x :: xs := rfl
    rw [← h2, ih [x]]
    have ha : digitsVal (a ++ [x]) = 10 * digitsVal a + x := by
      simp [digitsVal, List.foldl_append]
    have hx : digitsVal [x] = x := by simp [digitsVal]
    rw [ha, hx]
    simp [List.length_cons]
    ring

theorem digitsVal_natDigitsF (fuel : Nat) :
    ∀ n, n ≤ fuel → digitsVal (natDigitsF fuel n) = n := by
  induction fuel with
  | zero =>
    intro n hn
    simp [natDigitsF, digitsVal]
  | succ fuel ih =>
    intro n hn
    unfold natDigitsF
    split
    · simp [digitsVal]
    · next h =>
      have hdiv : n / 10 ≤ fuel := by
        have : n / 10 < n := Nat.div_lt_self (by omega) (by omega)
        omega
      rw [digitsVal_append, ih (n / 10) hdiv]
      simp [digitsVal]
      omega

theorem digitsVal_natDigits (n : Nat) : digitsVal (natDigits n) = n :=
  digitsVal_natDigitsF n n (le_refl n)

theorem natDigitsF_head_ne_zero (fuel : Nat) :
    ∀ n, n ≤ fuel → n ≠ 0 → ∀ d, (natDigitsF fuel n).head? = some d → d ≠ 0 := by
  induction fuel with
  | zero =>
    intro n hn hz
    omega
  | succ fuel ih =>
    intro n hn hz d hd
    unfold natDigitsF at hd
    split at hd
    · simp at hd
      omega
    · next h =>
      have hdiv : n / 10 ≤ fuel := by
        have : n / 10 < n := Nat.div_lt_self (by omega) (by omega)
        omega
      have hdz : n / 10 ≠ 0 := by
        intro hcon
        have := Nat.div_add_mod n 10
        omega
      have h1 : (natDigitsF fuel (n / 10)).length ≥ 1 := natDigitsF_pos_len _ _
      rcases hl : natDigitsF fuel (n / 10) with _ | ⟨x, xs⟩
      · rw [hl] at h1; simp at h1
      · rw [hl] at hd
        simp at hd
        exact ih (n / 10) hdiv hdz d (by rw [hl]; simpa using hd)

theorem natDigits_head_ne_zero (n : Nat) (hn : n ≠ 0) :
    ∀ d, (natDigits n).head? = some d → d ≠ 0 :=
  natDigitsF_head_ne_zero n n (le_refl n) hn

/-! ## Decimal parse and print (CPython `decimal`) -/

/-- Numeric value of a digit-character run. -/
def digitsOfChars (cs : List Char) : Nat := digitsVal (cs.map charDigit)

namespace Dec

/-- Parse the exponent suffix of a numeric string (regex part
`[eE][-+]?\d+` anchored to the end); the whole remainder must be consumed
(empty remainder means exponent `0`). -/
def parseExpPart (cs : List Char) : Option Int :=
  if cs = [] then some 0
  else if cs.head? = some 'e' ∨ cs.head? = some 'E' then
    if cs.tail.head? = some '-' ∨ cs.tail.head? = some '+' then
      if cs.tail.tail ≠ [] ∧ cs.tail.tail.all Char.isDigit then
        some (if cs.tail.head? = some '-' then -(digitsOfChars cs.tail.tail : Int)
          else (digitsOfChars cs.tail.tail : Int))
      else Option.none
    else
      if cs.tail ≠ [] ∧ cs.tail.all Char.isDigit then
        some (digitsOfChars cs.tail : Int)
      else Option.none
  else Option.none

/-- Parse the unsigned body of a numeric string: digit run, optional point
and fraction run, optional exponent; returns the raw coefficient digits and
the exponent. -/
def parseUnsigned (cs : List Char) : Option (List Nat × Int) :=
  let ip := cs.takeWhile Char.isDigit
  let rest := cs.dropWhile Char.isDigit
  if rest.head? = some '.' then
    let fp := rest.tail.takeWhile Char.isDigit
    let rest3 := rest.tail.dropWhile Char.isDigit
    if ip = [] ∧ fp = [] then Option.none
    else (parseExpPart rest3).map fun e => ((ip ++ fp).map charDigit, e - fp.length)
  else
    if ip = [] then Option.none
    else (parseExpPart rest).map fun e => (ip.map charDigit, e)

/-- Strip leading zeros from a coefficient, as the `Decimal` constructor
does (an all-zero coefficient collapses to a single `0`). -/
def normCoeff (ds : List Nat) : List Nat :=
  match ds.dropWhile (· = 0) with
  | [] => [0]
  | l => l

/-- Whitespace stripping and underscore removal performed by the `Decimal`
constructor on its string argument. -/
def stripChars (s : String) : List Char :=
  (((s.toList.filter (· ≠ '_')).dropWhile Char.isWhitespace).reverse.dropWhile
    Char.isWhitespace).reverse

/-- Split the optional leading sign (regex part `[-+]?`). -/
def splitSign (cs : List Char) : Bool × List Char :=
  if cs.head? = some '-' then (true, cs.tail)
  else if cs.head? = some '+' then (false, cs.tail)
  else (false, cs)

/-- Python `Decimal(<string>)` on finite numeric strings: whitespace is
stripped and underscores removed as in CPython; the non-finite forms
(`Infinity`, `NaN`), never produced by the repository, count as invalid. -/
def ofString (s : String) : Option Dec :=
  (parseUnsigned (splitSign (stripChars s)).2).map
    fun p => ⟨(splitSign (stripChars s)).1, normCoeff p.1, p.2⟩

/-- `leftdigits` of CPython `Decimal.__str__`: digits of the coefficient
to the left of the decimal point. -/
def leftdigits (d : Dec) : Int := d.exp + d.coeff.length

/-- `dotplace` of CPython `Decimal.__str__` (non-engineering format). -/
def dotplace (d : Dec) : Int :=
  if d.exp ≤ 0 ∧ leftdigits d > -6 then leftdigits d else 1

/-- `intpart`/`fracpart` of CPython `Decimal.__str__`, concatenated. -/
def sciBody (d : Dec) : List Char :=
  let ds := d.coeff.map digitChar
  if dotplace d < 1 then
    '0' :: '.' :: (List.replicate (-dotplace d).toNat '0' ++ ds)
  else if dotplace d ≥ d.coeff.length then
    ds ++ List.replicate (dotplace d - d.coeff.length).toNat '0'
  else
    ds.take (dotplace d).toNat ++ '.' :: ds.drop (dotplace d).toNat

/-- Exponent suffix of CPython `Decimal.__str__` (`'E%+d'` formatting). -/
def sciExp (d : Dec) : List Char :=
  if leftdigits d = dotplace d then []
  else 'E' :: (if 0 ≤ leftdigits d - dotplace d
    then '+' :: pyNatStr (leftdigits d - dotplace d).natAbs
    else pyIntStr (leftdigits d - dotplace d))

/-- CPython `Decimal.__str__` (to-sci-string) on finite values, as a
character list. -/
def toSciChars (d : Dec) : List Char :=
  (if d.sign then ['-'] else []) ++ sciBody d ++ sciExp d

/-- CPython `str(<Decimal>)` on finite values. -/
def toSciString (d : Dec) : String := String.mk (toSciChars d)

/-- Well-formed `Decimal` data, as the constructor always produces: digits
below ten, a nonempty coefficient with no leading zero unless it is the
single digit zero. -/
def WF (d : Dec) : Prop :=
  (∀ k ∈ d.coeff, k < 10) ∧ d.coeff ≠ [] ∧
    (d.coeff.head? = some 0 → d.coeff.length = 1)

instance : DecidablePred WF := fun d => by
  unfold WF
  infer_instance

end Dec

/-! ## Character and scanning lemmas -/

theorem takeWhile_append_all {α} (p : α → Bool) (a b : List α) (h : ∀ x ∈ a, p x) :
    (a ++ b).takeWhile p = a ++ b.takeWhile p := by
  induction a with
  | nil => simp
  | cons x xs ih =>
    simp only [List.cons_append, List.takeWhile_cons]
    rw [h x (by simp)]
    simp only [ite_true]
    rw [ih fun y hy => h y (by simp [hy])]

theorem dropWhile_append_all {α} (p : α → Bool) (a b : List α) (h : ∀ x ∈ a, p x) :
    (a ++ b).dropWhile p = b.dropWhile p := by
  induction a with
  | nil => simp
  | cons x xs ih =>
    simp only [List.cons_append, List.dropWhile_cons]
    rw [h x (by simp)]
    simp only [ite_true]
    exact ih fun y hy => h y (by simp [hy])

theorem takeWhile_eq_self_all {α} (p : α → Bool) (a : List α) (h : ∀ x ∈ a, p x) :
    a.takeWhile p = a := by
  have := takeWhile_append_all p a [] h
  simpa using this

theorem dropWhile_eq_nil_all {α} (p : α → Bool) (a : List α) (h : ∀ x ∈ a, p x) :
    a.dropWhile p = [] := by
  have := dropWhile_append_all p a [] h
  simpa using this

theorem dropWhile_eq_self_head {α} (p : α → Bool) (a : List α)
    (h : ∀ x, a.head? = some x → ¬ p x) : a.dropWhile p = a := by
  cases a with
  | nil => rfl
  | cons x xs =>
    simp only [List.dropWhile_cons]
    have := h x rfl
    simp [this]

theorem dropWhile_length_le {α} (p : α → Bool) (l : List α) :
    (l.dropWhile p).length ≤ l.length := by
  induction l with
  | nil => simp
  | cons x xs ih =>
    rw [List.dropWhile_cons]
    split
    · exact le_trans ih (by simp)
    · simp

theorem takeWhile_eq_nil_head {α} (p : α → Bool) (a : List α)
    (h : ∀ x, a.head? = some x → p x = false) : a.takeWhile p = [] := by
  cases a with
  | nil => rfl
  | cons x xs =>
    rw [List.takeWhile_cons, if_neg]
    simp [h x rfl]

theorem charDigit_digitChar (k : Nat) (h : k < 10) : charDigit (digitChar k) = k := by
  interval_cases k <;> decide

theorem isDigit_digitChar (k : Nat) (h : k < 10) : (digitChar k).isDigit = true := by
  interval_cases k <;> decide

theorem map_charDigit_digitChar (ds : List Nat) (h : ∀ k ∈ ds, k < 10) :
    (ds.map digitChar).map charDigit = ds := by
  induction ds with
  | nil => rfl
  | cons x xs ih =>
    simp only [List.map_cons]
    rw [charDigit_digitChar x (h x (by simp))]
    rw [ih fun k hk => h k (by simp [hk])]

theorem all_isDigit_map_digitChar (ds : List Nat) (h : ∀ k ∈ ds, k < 10) :
    ∀ c ∈ ds.map digitChar, c.isDigit := by
  intro c hc
  rw [List.mem_map] at hc
  obtain ⟨k, hk, rfl⟩ := hc
  exact isDigit_digitChar k (h k hk)

theorem pyNatStr_all_isDigit (n : Nat) : ∀ c ∈ pyNatStr n, c.isDigit :=
  all_isDigit_map_digitChar _ (natDigits_lt_ten n)

theorem pyNatStr_ne_nil (n : Nat) : pyNatStr n ≠ [] := by
  unfold pyNatStr
  have := natDigits_pos_len n
  intro hc
  rw [List.map_eq_nil_iff] at hc
  rw [hc] at this
  simp at this

theorem digitsOfChars_pyNatStr (n : Nat) : digitsOfChars (pyNatStr n) = n := by
  unfold digitsOfChars pyNatStr
  rw [map_charDigit_digitChar _ (natDigits_lt_ten n)]
  exact digitsVal_natDigits n

namespace Dec

theorem parseExpPart_exp (e : Int) :
    parseExpPart ('E' :: (if 0 ≤ e then '+' :: pyNatStr e.natAbs else pyIntStr e)) =
      some e := by
  have h1 : pyNatStr e.natAbs ≠ [] := pyNatStr_ne_nil _
  have h2 : (pyNatStr e.natAbs).all Char.isDigit = true := by
    rw [List.all_eq_true]
    exact fun c hc => pyNatStr_all_isDigit _ c hc
  by_cases hpos : 0 ≤ e
  · simp only [hpos, ite_true]
    unfold parseExpPart
    simp [h1, h2, digitsOfChars_pyNatStr, Int.natAbs_of_nonneg hpos]
  · simp only [hpos, ite_false]
    unfold pyIntStr
    have hneg : e < 0 := by omega
    simp only [hneg, ite_true]
    unfold parseExpPart
    have habs : ((e.natAbs : Int)) = -e := Int.ofNat_natAbs_of_nonpos (by omega)
    simp [h1, h2, digitsOfChars_pyNatStr, habs]

theorem normCoeff_zeros_append (m : Nat) (c : List Nat)
    (hne : c ≠ []) (hlz : c.head? = some 0 → c.length = 1) :
    normCoeff (List.replicate m 0 ++ c) = c := by
  unfold normCoeff
  rw [dropWhile_append_all _ _ _ (by intro x hx; rw [List.mem_replicate] at hx; simp [hx.2])]
  cases c with
  | nil => exact absurd rfl hne
  | cons x xs =>
    by_cases hx : x = 0
    · subst hx
      have hxs : xs = [] := by
        have := hlz rfl
        simpa using this
      subst hxs
      decide
    · simp only [List.dropWhile_cons]
      have : (decide (x = 0)) = false := by simp [hx]
      rw [this]
      simp

theorem normCoeff_wf (c : List Nat)
    (hne : c ≠ []) (hlz : c.head? = some 0 → c.length = 1) :
    normCoeff c = c := by
  have := normCoeff_zeros_append 0 c hne hlz
  simpa using this

theorem digitChar_plain (k : Nat) (h : k < 10) :
    (digitChar k).isWhitespace = false ∧ digitChar k ≠ '_' := by
  interval_cases k <;> exact ⟨by decide, by decide⟩

theorem mem_pyNatStr_plain (n : Nat) :
    ∀ c ∈ pyNatStr n, c.isWhitespace = false ∧ c ≠ '_' := by
  intro c hc
  unfold pyNatStr at hc
  rw [List.mem_map] at hc
  obtain ⟨k, hk, rfl⟩ := hc
  exact digitChar_plain k (natDigits_lt_ten n k hk)

theorem mem_pyNatStr_cases (n : Nat) :
    ∀ c ∈ pyNatStr n, ∃ k, k < 10 ∧ c = digitChar k := by
  intro c hc
  unfold pyNatStr at hc
  rw [List.mem_map] at hc
  obtain ⟨k, hk, rfl⟩ := hc
  exact ⟨k, natDigits_lt_ten n k hk, rfl⟩

theorem mem_toSciChars_cases (d : Dec) (h10 : ∀ k ∈ d.coeff, k < 10) :
    ∀ c ∈ toSciChars d,
      (∃ k, k < 10 ∧ c = digitChar k) ∨ c = '-' ∨ c = '+' ∨ c = '.' ∨
        c = 'E' ∨ c = '0' := by
  have hds : ∀ c ∈ d.coeff.map digitChar, ∃ k, k < 10 ∧ c = digitChar k := by
    intro c hc
    rw [List.mem_map] at hc
    obtain ⟨k, hk, rfl⟩ := hc
    exact ⟨k, h10 k hk, rfl⟩
  intro c hc
  unfold toSciChars at hc
  rw [List.mem_append, List.mem_append] at hc
  rcases hc with (hc | hc) | hc
  · split at hc
    · simp at hc
      subst hc
      simp
    · simp at hc
  · unfold sciBody at hc
    simp only at hc
    split at hc
    · simp only [List.mem_cons, List.mem_append, List.mem_replicate] at hc
      rcases hc with rfl | rfl | ⟨_, rfl⟩ | hc
      · simp
      · simp
      · simp
      · exact Or.inl (hds c hc)
    · split at hc
      · rw [List.mem_append, List.mem_replicate] at hc
        rcases hc with hc | ⟨_, rfl⟩
        · exact Or.inl (hds c hc)
        · simp
      · rw [List.mem_append] at hc
        rcases hc with hc | hc
        · exact Or.inl (hds c (List.take_subset _ _ hc))
        · rw [List.mem_cons] at hc
          rcases hc with rfl | hc
          · simp
          · exact Or.inl (hds c (List.drop_subset _ _ hc))
  · unfold sciExp at hc
    split at hc
    · simp at hc
    · rw [List.mem_cons] at hc
      rcases hc with rfl | hc
      · simp
      · split at hc
        · rw [List.mem_cons] at hc
          rcases hc with rfl | hc
          · simp
          · exact Or.inl (mem_pyNatStr_cases _ c hc)
        · unfold pyIntStr at hc
          split at hc
          · rw [List.mem_cons] at hc
            rcases hc with rfl | hc
            · simp
            · exact Or.inl (mem_pyNatStr_cases _ c hc)
          · exact Or.inl (mem_pyNatStr_cases _ c hc)

theorem mem_toSciChars_plain (d : Dec) (h10 : ∀ k ∈ d.coeff, k < 10) :
    ∀ c ∈ toSciChars d, c.isWhitespace = false ∧ c ≠ '_' := by
  intro c hc
  rcases mem_toSciChars_cases d h10 c hc with ⟨k, hk, rfl⟩ | rfl | rfl | rfl | rfl | rfl
  · exact digitChar_plain k hk
  · exact ⟨by decide, by decide⟩
  · exact ⟨by decide, by decide⟩
  · exact ⟨by decide, by decide⟩
  · exact ⟨by decide, by decide⟩
  · exact ⟨by decide, by decide⟩

theorem digitChar_ne_quote (k : Nat) (h : k < 10) : digitChar k ≠ '\'' := by
  interval_cases k <;> decide

theorem mem_toSciChars_ne_quote (d : Dec) (h10 : ∀ k ∈ d.coeff, k < 10) :
    ∀ c ∈ toSciChars d, c ≠ '\'' := by
  intro c hc
  rcases mem_toSciChars_cases d h10 c hc with ⟨k, hk, rfl⟩ | rfl | rfl | rfl | rfl | rfl
  · exact digitChar_ne_quote k hk
  · decide
  · decide
  · decide
  · decide
  · decide

theorem stripChars_mk_plain (l : List Char)
    (h : ∀ c ∈ l, c.isWhitespace = false ∧ c ≠ '_') :
    stripChars (String.mk l) = l := by
  unfold stripChars
  have h1 : (String.mk l).toList = l := rfl
  rw [h1]
  have h2 : l.filter (fun c => decide (c ≠ '_')) = l := by
    rw [List.filter_eq_self]
    intro a ha
    simp [(h a ha).2]
  rw [h2]
  have h3 : l.dropWhile Char.isWhitespace = l := by
    cases l with
    | nil => rfl
    | cons y ys =>
      rw [List.dropWhile_cons]
      simp [(h y (by simp)).1]
  rw [h3]
  have h4 : l.reverse.dropWhile Char.isWhitespace = l.reverse := by
    cases hl : l.reverse with
    | nil => simp
    | cons y ys =>
      rw [List.dropWhile_cons]
      have hy : y ∈ l := by
        rw [← List.mem_reverse, hl]
        simp
      simp [(h y hy).1]
  rw [h4, List.reverse_reverse]

theorem sciBody_head_digit (d : Dec) (hne : d.coeff ≠ []) :
    (sciBody d).head? = some '0' ∨
      ∃ k t, (sciBody d).head? = some (digitChar k) ∧ d.coeff = k :: t := by
  obtain ⟨k, t, hk⟩ : ∃ k t, d.coeff = k :: t := by
    cases hc : d.coeff with
    | nil => exact absurd hc hne
    | cons x xs => exact ⟨x, xs, rfl⟩
  unfold sciBody
  simp only
  split
  · left; rfl
  · next hge =>
    split
    · right
      exact ⟨k, t, by rw [hk]; simp, hk⟩
    · right
      refine ⟨k, t, ?_, hk⟩
      rw [hk]
      have h1 : 1 ≤ dotplace d := by omega
      have h2 : ∃ m, (dotplace d).toNat = m + 1 := by
        have := Int.toNat_of_nonneg (by omega : (0:Int) ≤ dotplace d)
        refine ⟨(dotplace d).toNat - 1, ?_⟩
        omega
      obtain ⟨m, hm⟩ := h2
      rw [hm]
      simp [List.take_cons]

theorem toSciChars_ne_nil (d : Dec) (hne : d.coeff ≠ []) : toSciChars d ≠ [] := by
  obtain ⟨c, tl, hc⟩ : ∃ c tl, sciBody d = c :: tl := by
    cases hb : sciBody d with
    | nil =>
      rcases sciBody_head_digit d hne with h | ⟨k, t, hk, _⟩
      · rw [hb] at h; simp at h
      · rw [hb] at hk; simp at hk
    | cons x xs => exact ⟨x, xs, rfl⟩
  unfold toSciChars
  rw [hc]
  intro hcon
  rcases List.append_eq_nil.mp hcon with ⟨h1, _⟩
  rcases List.append_eq_nil.mp h1 with ⟨_, h2⟩
  exact List.noConfusion h2

theorem splitSign_toSciChars (d : Dec) (h10 : ∀ k ∈ d.coeff, k < 10)
    (hne : d.coeff ≠ []) :
    splitSign (toSciChars d) = (d.sign, sciBody d ++ sciExp d) := by
  have hhead : ∀ c, (sciBody d).head? = some c → (c = '-') = False ∧ (c = '+') = False := by
    intro c hc
    rcases sciBody_head_digit d hne with h | ⟨k, t, hk, hck⟩
    · rw [h] at hc
      cases hc
      exact ⟨by simp, by simp⟩
    · rw [hk] at hc
      cases hc
      have hk10 : k < 10 := h10 k (by rw [hck]; simp)
      constructor
      · simp only [eq_iff_iff, iff_false]
        interval_cases k <;> decide
      · simp only [eq_iff_iff, iff_false]
        interval_cases k <;> decide
  obtain ⟨c, tl, hc⟩ : ∃ c tl, sciBody d = c :: tl := by
    cases hb : sciBody d with
    | nil =>
      rcases sciBody_head_digit d hne with h | ⟨k, t, hk, _⟩
      · rw [hb] at h; simp at h
      · rw [hb] at hk; simp at hk
    | cons x xs => exact ⟨x, xs, rfl⟩
  have hcc : (sciBody d).head? = some c := by rw [hc]; rfl
  obtain ⟨hcm, hcp⟩ := hhead c hcc
  unfold toSciChars splitSign
  cases hs : d.sign with
  | true =>
    simp [List.singleton_append]
  | false =>
    have hnil : (if (false = true) then ['-'] else ([] : List Char)) = [] := by simp
    rw [hnil, List.nil_append]
    rw [hc]
    simp only [List.cons_append, List.head?_cons, List.tail_cons]
    have e1 : (some c = some '-') = False := by
      simp only [Option.some.injEq]
      simp [hcm]
    have e2 : (some c = some '+') = False := by
      simp only [Option.some.injEq]
      simp [hcp]
    rw [if_neg (by rw [e1]; exact id), if_neg (by rw [e2]; exact id)]

theorem parseExpPart_nil : parseExpPart [] = some 0 := by
  unfold parseExpPart
  simp

theorem parseUnsigned_dotform (a b tailexp : List Char) (e : Int)
    (ha : ∀ c ∈ a, Char.isDigit c) (hb : ∀ c ∈ b, Char.isDigit c)
    (hane : a ≠ [])
    (hexp : parseExpPart tailexp = some e)
    (htd : ∀ c, tailexp.head? = some c → Char.isDigit c = false) :
    parseUnsigned (a ++ '.' :: (b ++ tailexp)) =
      some ((a ++ b).map charDigit, e - b.length) := by
  have h1 : (a ++ '.' :: (b ++ tailexp)).takeWhile Char.isDigit = a := by
    rw [takeWhile_append_all _ _ _ ha, List.takeWhile_cons]
    rw [if_neg (by decide)]
    simp
  have h2 : (a ++ '.' :: (b ++ tailexp)).dropWhile Char.isDigit = '.' :: (b ++ tailexp) := by
    rw [dropWhile_append_all _ _ _ ha, List.dropWhile_cons]
    rw [if_neg (by decide)]
  have h3 : (b ++ tailexp).takeWhile Char.isDigit = b := by
    rw [takeWhile_append_all _ _ _ hb]
    rw [takeWhile_eq_nil_head]
    · simp
    · exact htd
  have h4 : (b ++ tailexp).dropWhile Char.isDigit = tailexp := by
    rw [dropWhile_append_all _ _ _ hb]
    exact dropWhile_eq_self_head _ _ (by intro c hc; simp [htd c hc])
  unfold parseUnsigned
  simp only [h1, h2, List.head?_cons, List.tail_cons, h3, h4]
  rw [if_pos trivial]
  rw [if_neg (by simp [hane])]
  rw [hexp]
  rfl

theorem parseUnsigned_plainform (a tailexp : List Char) (e : Int)
    (ha : ∀ c ∈ a, Char.isDigit c) (hane : a ≠ [])
    (hexp : parseExpPart tailexp = some e)
    (htd : ∀ c, tailexp.head? = some c → Char.isDigit c = false ∧ c ≠ '.') :
    parseUnsigned (a ++ tailexp) = some (a.map charDigit, e) := by
  have h1 : (a ++ tailexp).takeWhile Char.isDigit = a := by
    rw [takeWhile_append_all _ _ _ ha, takeWhile_eq_nil_head]
    · simp
    · exact fun c hc => (htd c hc).1
  have h2 : (a ++ tailexp).dropWhile Char.isDigit = tailexp := by
    rw [dropWhile_append_all _ _ _ ha]
    exact dropWhile_eq_self_head _ _ (by intro c hc; simp [(htd c hc).1])
  have h5 : tailexp.head? ≠ some '.' := by
    intro hcon
    exact (htd '.' hcon).2 rfl
  unfold parseUnsigned
  simp only [h1, h2]
  rw [if_neg h5]
  rw [if_neg (by simp [hane])]
  rw [hexp]
  rfl

theorem parseUnsigned_sci (d : Dec) (h10 : ∀ k ∈ d.coeff, k < 10)
    (hne : d.coeff ≠ []) (hlz : d.coeff.head? = some 0 → d.coeff.length = 1) :
    ∃ raw, parseUnsigned (sciBody d ++ sciExp d) = some (raw, d.exp) ∧
      normCoeff raw = d.coeff := by
  have hdsd : ∀ c ∈ d.coeff.map digitChar, Char.isDigit c :=
    all_isDigit_map_digitChar _ h10
  have hLpos : 1 ≤ d.coeff.length := List.length_pos.mpr hne
  have hmap : (d.coeff.map digitChar).map charDigit = d.coeff :=
    map_charDigit_digitChar _ h10
  have hldL : leftdigits d = d.exp + d.coeff.length := rfl
  by_cases hA : d.exp ≤ 0 ∧ leftdigits d > -6
  · have hdp : dotplace d = leftdigits d := by
      unfold dotplace
      rw [if_pos hA]
    have hexp0 : sciExp d = [] := by
      unfold sciExp
      rw [if_pos hdp.symm]
    rw [hexp0, List.append_nil]
    by_cases h1 : dotplace d < 1
    · -- leading `0.` form with zero padding
      have hbody : sciBody d =
          '0' :: '.' :: (List.replicate (-(dotplace d)).toNat '0' ++ d.coeff.map digitChar) := by
        unfold sciBody
        simp only
        rw [if_pos h1]
      rw [hbody]
      have hform := parseUnsigned_dotform ['0']
        (List.replicate (-(dotplace d)).toNat '0' ++ d.coeff.map digitChar) [] 0
        (by intro c hc; simp at hc; subst hc; decide)
        (by
          intro c hc
          rw [List.mem_append, List.mem_replicate] at hc
          rcases hc with ⟨_, rfl⟩ | hc
          · decide
          · exact hdsd c hc)
        (by simp)
        parseExpPart_nil
        (by intro c hc; simp at hc)
      rw [show ('0' :: '.' ::
            (List.replicate (-(dotplace d)).toNat '0' ++ d.coeff.map digitChar)) =
          ['0'] ++ '.' ::
            ((List.replicate (-(dotplace d)).toNat '0' ++ d.coeff.map digitChar) ++ []) from by
        simp]
      rw [hform]
      refine ⟨0 :: List.replicate (-(dotplace d)).toNat 0 ++ d.coeff, ?_, ?_⟩
      · simp only [Option.some.injEq, Prod.mk.injEq]
        constructor
        · rw [List.map_append, List.map_append, List.map_replicate]
          rw [hmap]
          rfl
        · rw [List.length_append, List.length_replicate, List.length_map]
          have hto : ((-(dotplace d)).toNat : Int) = -(dotplace d) :=
            Int.toNat_of_nonneg (by omega)
          push_cast
          omega
      · have : (0 : Nat) :: List.replicate (-(dotplace d)).toNat 0 ++ d.coeff =
            List.replicate ((-(dotplace d)).toNat + 1) 0 ++ d.coeff := by
          rw [List.replicate_succ]
        rw [this]
        exact normCoeff_zeros_append _ _ hne hlz
    · by_cases h2 : dotplace d ≥ d.coeff.length
      · -- pure integer form (exponent zero)
        have hE0 : d.exp = 0 := by omega
        have hdpL : dotplace d = d.coeff.length := by omega
        have hbody : sciBody d = d.coeff.map digitChar := by
          unfold sciBody
          simp only
          rw [if_neg h1, if_pos h2]
          rw [show (dotplace d - (d.coeff.length : Int)).toNat = 0 from by omega]
          simp
        rw [hbody]
        have hform := parseUnsigned_plainform (d.coeff.map digitChar) [] 0
          hdsd (by simpa using hne) parseExpPart_nil
          (by intro c hc; simp at hc)
        rw [show (d.coeff.map digitChar) = d.coeff.map digitChar ++ [] from by simp]
        rw [hform]
        exact ⟨d.coeff, by rw [hmap, hE0], normCoeff_wf _ hne hlz⟩
      · -- point inside the digit string
        have hn1 : 1 ≤ (dotplace d).toNat := by omega
        have hnL : (dotplace d).toNat < d.coeff.length := by omega
        have hbody : sciBody d =
            (d.coeff.map digitChar).take (dotplace d).toNat ++
              '.' :: (d.coeff.map digitChar).drop (dotplace d).toNat := by
          unfold sciBody
          simp only
          rw [if_neg h1, if_neg h2]
        rw [hbody]
        have hform := parseUnsigned_dotform
          ((d.coeff.map digitChar).take (dotplace d).toNat)
          ((d.coeff.map digitChar).drop (dotplace d).toNat) [] 0
          (fun c hc => hdsd c (List.take_subset _ _ hc))
          (fun c hc => hdsd c (List.drop_subset _ _ hc))
          (by
            apply List.ne_nil_of_length_pos
            rw [List.length_take, List.length_map]
            omega)
          parseExpPart_nil
          (by intro c hc; simp at hc)
        rw [show ((d.coeff.map digitChar).take (dotplace d).toNat ++
              '.' :: (d.coeff.map digitChar).drop (dotplace d).toNat) =
            (d.coeff.map digitChar).take (dotplace d).toNat ++
              '.' :: ((d.coeff.map digitChar).drop (dotplace d).toNat ++ []) from by simp]
        rw [hform]
        refine ⟨d.coeff, ?_, normCoeff_wf _ hne hlz⟩
        simp only [Option.some.injEq, Prod.mk.injEq]
        constructor
        · rw [List.take_append_drop, hmap]
        · rw [List.length_drop, List.length_map]
          have hto : ((dotplace d).toNat : Int) = dotplace d :=
            Int.toNat_of_nonneg (by omega)
          push_cast
          omega
  · -- scientific notation
    have hdp : dotplace d = 1 := by
      unfold dotplace
      rw [if_neg hA]
    have hldne : leftdigits d ≠ dotplace d := by
      rw [hdp]
      intro hcon
      rw [not_and_or] at hA
      rcases hA with hA | hA
      · omega
      · omega
    have hexpE : sciExp d = 'E' :: (if 0 ≤ leftdigits d - dotplace d
        then '+' :: pyNatStr (leftdigits d - dotplace d).natAbs
        else pyIntStr (leftdigits d - dotplace d)) := by
      unfold sciExp
      rw [if_neg hldne]
    have hexp : parseExpPart (sciExp d) = some (leftdigits d - dotplace d) := by
      rw [hexpE]
      exact parseExpPart_exp _
    have hEhead : ∀ c, (sciExp d).head? = some c →
        Char.isDigit c = false ∧ c ≠ '.' := by
      intro c hc
      rw [hexpE] at hc
      simp at hc
      subst hc
      exact ⟨by decide, by decide⟩
    by_cases h2 : dotplace d ≥ d.coeff.length
    · -- single coefficient digit
      have hL1 : d.coeff.length = 1 := by omega
      have hbody : sciBody d = d.coeff.map digitChar := by
        unfold sciBody
        simp only
        rw [if_neg (by omega), if_pos h2]
        rw [show (dotplace d - (d.coeff.length : Int)).toNat = 0 from by omega]
        simp
      rw [hbody]
      have hform := parseUnsigned_plainform (d.coeff.map digitChar) (sciExp d)
        (leftdigits d - dotplace d) hdsd (by simpa using hne) hexp hEhead
      rw [hform]
      refine ⟨d.coeff, ?_, normCoeff_wf _ hne hlz⟩
      rw [hmap]
      simp only [Option.some.injEq, Prod.mk.injEq, true_and]
      omega
    · -- point after the first digit
      have hbody : sciBody d =
          (d.coeff.map digitChar).take (dotplace d).toNat ++
            '.' :: (d.coeff.map digitChar).drop (dotplace d).toNat := by
        unfold sciBody
        simp only
        rw [if_neg (by omega), if_neg h2]
      rw [hbody]
      have hform := parseUnsigned_dotform
        ((d.coeff.map digitChar).take (dotplace d).toNat)
        ((d.coeff.map digitChar).drop (dotplace d).toNat) (sciExp d)
        (leftdigits d - dotplace d)
        (fun c hc => hdsd c (List.take_subset _ _ hc))
        (fun c hc => hdsd c (List.drop_subset _ _ hc))
        (by
          apply List.ne_nil_of_length_pos
          rw [List.length_take, List.length_map]
          omega)
        hexp
        (fun c hc => (hEhead c hc).1)
      rw [List.append_assoc, List.cons_append]
      rw [hform]
      refine ⟨d.coeff, ?_, normCoeff_wf _ hne hlz⟩
      simp only [Option.some.injEq, Prod.mk.injEq]
      constructor
      · rw [List.take_append_drop, hmap]
      · rw [List.length_drop, List.length_map]
        have hto : ((dotplace d).toNat : Int) = dotplace d :=
          Int.toNat_of_nonneg (by omega)
        push_cast
        omega

/-- Round trip of the decimal codec: parsing the printed form of a
well-formed `Decimal` recovers it exactly. -/
theorem ofString_toSciString (d : Dec) (hwf : WF d) :
    ofString (toSciString d) = some d := by
  obtain ⟨h10, hne, hlz⟩ := hwf
  obtain ⟨raw, hp, hn⟩ := parseUnsigned_sci d h10 hne hlz
  unfold ofString toSciString
  rw [stripChars_mk_plain _ (mem_toSciChars_plain d h10)]
  rw [splitSign_toSciChars d h10 hne]
  dsimp only
  rw [hp]
  simp only [Option.map_some']
  rw [hn]

/-- Python `Decimal(<int>)`. -/
def ofInt (n : Int) : Dec := ⟨n < 0, natDigits n.natAbs, 0⟩

end Dec

/-! ## `ast.literal_eval`, modelled on scalar literals

The source parses configuration text with `ast.literal_eval`.  The model
covers the scalar literal forms the configuration engine stores and reads:
optionally signed numeric literals, quoted strings, `True`/`False`/`None`,
plain and dotted names (which evaluate to a `ValueError`, i.e. "malformed
node"), and bare keywords (a syntax error).  Container literals, string
prefixes and concatenation, underscores and non-decimal bases in numbers —
none of which the configuration engine ever produces — are approximated as
syntax errors. -/

/-- Result of the modelled `ast.literal_eval`: a value, a `ValueError`
(caught by the codec, which then retains the text), or a `SyntaxError`
(uncaught by the codec). -/
inductive LE where
  | ok (v : PyVal)
  | valueError
  | syntaxError
deriving DecidableEq, Repr

/-- The space and tab characters stripped by `literal_eval` itself. -/
def isSpaceTab (c : Char) : Bool := c = ' ' ∨ c = '\t'

/-- Identifier start character (ASCII). -/
def isIdentStart (c : Char) : Bool := c.isAlpha ∨ c = '_'

/-- Identifier continuation character (ASCII). -/
def isIdentChar (c : Char) : Bool := c.isAlphanum ∨ c = '_'

/-- Python keywords other than the literal ones `True`/`False`/`None`:
a bare keyword is a syntax error. -/
def kwList : List String :=
  ["and", "as", "assert", "async", "await", "break", "class", "continue",
   "def", "del", "elif", "else", "except", "finally", "for", "from",
   "global", "if", "import", "in", "is", "lambda", "nonlocal", "not",
   "or", "pass", "raise", "return", "try", "while", "with", "yield"]

/-- Result of scanning for an exponent suffix of a numeric token. -/
inductive ExpScan where
  | noExp
  | badExp
  | exp (tok : List Char) (rest : List Char)
deriving Repr

/-- Scan an optional exponent suffix (`[eE][+-]?digits`); a bare `e`
without digits is a malformed token. -/
def scanExpTail (cs : List Char) : ExpScan :=
  if cs.head? = some 'e' ∨ cs.head? = some 'E' then
    let signLen : Nat :=
      if cs.tail.head? = some '-' ∨ cs.tail.head? = some '+' then 1 else 0
    let afterSign := cs.drop (1 + signLen)
    let dg := afterSign.takeWhile Char.isDigit
    if dg = [] then .badExp
    else .exp (cs.take (1 + signLen + dg.length)) (afterSign.drop dg.length)
  else .noExp

/-- Result of scanning a numeric token. -/
inductive NumScan where
  | notNum
  | malformed
  | num (isFloat : Bool) (tok : List Char) (rest : List Char)
deriving Repr

/-- Scan a numeric literal token (CPython tokenizer, decimal forms):
integer run, optional point and fraction, optional exponent; an integer
with leading zeros is rejected as the tokenizer does. -/
def scanNumber (cs : List Char) : NumScan :=
  let ip := cs.takeWhile Char.isDigit
  let r1 := cs.dropWhile Char.isDigit
  if ip = [] ∧ r1.head? ≠ some '.' then .notNum
  else if r1.head? = some '.' then
    let fp := r1.tail.takeWhile Char.isDigit
    let r2 := r1.tail.dropWhile Char.isDigit
    if ip = [] ∧ fp = [] then .notNum
    else
      match scanExpTail r2 with
      | .noExp => .num true (ip ++ '.' :: fp) r2
      | .badExp => .malformed
      | .exp etok rest => .num true (ip ++ '.' :: fp ++ etok) rest
  else
    match scanExpTail r1 with
    | .noExp =>
      if ip.head? = some '0' ∧ ¬ ip.all (· = '0') then .malformed
      else .num false ip r1
    | .badExp => .malformed
    | .exp etok rest => .num true (ip ++ etok) rest

/-- Known one-character string escapes (unknown escapes keep the
backslash, as CPython does). -/
def escChar (e : Char) : Option Char :=
  if e = 'n' then some '\n'
  else if e = 't' then some '\t'
  else if e = 'r' then some '\r'
  else if e = '\\' then some '\\'
  else if e = '\'' then some '\''
  else if e = '"' then some '"'
  else if e = '0' then some (Char.ofNat 0)
  else if e = 'a' then some (Char.ofNat 7)
  else if e = 'b' then some (Char.ofNat 8)
  else if e = 'f' then some (Char.ofNat 12)
  else if e = 'v' then some (Char.ofNat 11)
  else Option.none

/-- Scan the body of a string literal opened with quote `q` (structural
fuel, at least the character count): returns the decoded content and the
remainder, or `none` for an unterminated literal (a newline inside a
short literal is unterminated). -/
def scanStringBodyF : Nat → Char → List Char → Option (List Char × List Char)
  | 0, _, _ => Option.none
  | fuel + 1, q, cs =>
    match cs with
    | [] => Option.none
    | c :: rest =>
      if c = q then some ([], rest)
      else if c = '\n' then Option.none
      else if c = '\\' then
        match rest with
        | [] => Option.none
        | e :: rest2 =>
          if e = '\n' then scanStringBodyF fuel q rest2
          else
            match escChar e with
            | some ch => (scanStringBodyF fuel q rest2).map fun p => (ch :: p.1, p.2)
            | Option.none => (scanStringBodyF fuel q rest2).map fun p => ('\\' :: e :: p.1, p.2)
      else (scanStringBodyF fuel q rest).map fun p => (c :: p.1, p.2)

/-- Scan the body of a string literal opened with quote `q`. -/
def scanStringBody (q : Char) (cs : List Char) : Option (List Char × List Char) :=
  scanStringBodyF cs.length q cs

/-- Head-of-tail identifier-start test used by the dotted-name scan. -/
def tailIdentStart (cs : List Char) : Bool :=
  match cs.tail.head? with
  | some c => isIdentStart c
  | Option.none => false

/-- Consume a dotted-name tail `(. ident)*` (structural fuel, at least
the character count), returning the remainder. -/
def scanDottedF : Nat → List Char → List Char
  | 0, cs => cs
  | fuel + 1, cs =>
    if cs.head? = some '.' ∧ tailIdentStart cs then
      scanDottedF fuel (cs.tail.dropWhile isIdentChar)
    else cs

/-- Consume a dotted-name tail `(. ident)*`, returning the remainder. -/
def scanDotted (cs : List Char) : List Char := scanDottedF cs.length cs

/-- Result of parsing one (possibly signed) atom. -/
inductive AtomRes where
  | ok (v : PyVal) (rest : List Char)
  | nonLiteral (rest : List Char)
  | synErr
deriving Repr

/-- Parse an unsigned atom: numeric literal, string literal, keyword
literal, or (dotted) name. -/
def leAtom (cs : List Char) : AtomRes :=
  match scanNumber cs with
  | .malformed => .synErr
  | .num isF tok rest =>
    if isF then .ok (PyVal.float (String.mk tok)) rest
    else .ok (PyVal.int (digitsOfChars tok)) rest
  | .notNum =>
    match cs with
    | [] => .synErr
    | c :: rest =>
      if c = '\'' ∨ c = '"' then
        match scanStringBody c rest with
        | some (content, rest2) => .ok (PyVal.str (String.mk content)) rest2
        | Option.none => .synErr
      else if isIdentStart c then
        let idt := (c :: rest).takeWhile isIdentChar
        let after := (c :: rest).dropWhile isIdentChar
        if after.head? = some '.' ∧ tailIdentStart after then
          .nonLiteral (scanDotted after)
        else if String.mk idt = "True" then .ok (PyVal.bool true) after
        else if String.mk idt = "False" then .ok (PyVal.bool false) after
        else if String.mk idt = "None" then .ok PyVal.none after
        else if kwList.contains (String.mk idt) then .synErr
        else .nonLiteral after
      else .synErr

/-- Apply the collected unary sign to a parsed atom: the sign is folded
into an int or float; any other operand is a "malformed node"
`ValueError`, as in `ast.literal_eval`. -/
def leSignedAtom (neg : Bool) (cs : List Char) : AtomRes :=
  match leAtom cs with
  | .ok (PyVal.int n) rest => .ok (PyVal.int (if neg then -n else n)) rest
  | .ok (PyVal.float t) rest =>
    .ok (PyVal.float (if neg then String.mk ('-' :: t.toList) else t)) rest
  | .ok _ rest => .nonLiteral rest
  | .nonLiteral rest => .nonLiteral rest
  | .synErr => .synErr

/-- Parse the operand of one or more unary signs (structural fuel, at
least the character count): a nested sign, once the whole expression
parses, is a "malformed node" `ValueError`, as in `ast.literal_eval`. -/
def leSignedF : Nat → Bool → List Char → AtomRes
  | 0, neg, cs => leSignedAtom neg cs
  | fuel + 1, neg, cs =>
    if cs.head? = some '-' ∨ cs.head? = some '+' then
      match leSignedF fuel neg (cs.tail.dropWhile isSpaceTab) with
      | .synErr => .synErr
      | .ok _ rest => .nonLiteral rest
      | .nonLiteral rest => .nonLiteral rest
    else leSignedAtom neg cs

/-- Parse the operand of one or more unary signs. -/
def leSigned (neg : Bool) (cs : List Char) : AtomRes := leSignedF cs.length neg cs

/-- Classify the final state: trailing whitespace is allowed after a full
expression; a parsed non-literal is the `ValueError` the codec catches. -/
def leFinish (r : AtomRes) : LE :=
  match r with
  | .synErr => .syntaxError
  | .ok v rest => if rest.all Char.isWhitespace then .ok v else .syntaxError
  | .nonLiteral rest => if rest.all Char.isWhitespace then .valueError else .syntaxError

/-- The modelled `ast.literal_eval` on a string (the codec's generic
literal parser). -/
def literalEval (s : String) : LE :=
  let cs := s.toList.dropWhile isSpaceTab
  if cs.head? = some '-' then leFinish (leSigned true (cs.tail.dropWhile isSpaceTab))
  else if cs.head? = some '+' then leFinish (leSigned false (cs.tail.dropWhile isSpaceTab))
  else leFinish (leAtom cs)

/-! ## The codec: `_TypesHandler` and `TypesManager` -/

/-- Try to match `re.search(r"Decimal\('([^']+)'\)", ...)` at the current
position, returning the captured group. -/
def decCapture (cs : List Char) : Option (List Char) :=
  if ("Decimal('".toList).isPrefixOf cs then
    let rest := cs.drop 9
    let cap := rest.takeWhile (· ≠ '\'')
    let after := rest.dropWhile (· ≠ '\'')
    if cap ≠ [] ∧ after.head? = some '\'' ∧ after.tail.head? = some ')' then some cap
    else Option.none
  else Option.none

/-- Leftmost match of the decimal-literal pattern anywhere in the text
(`re.search` semantics). -/
def decSearch : List Char → Option (List Char)
  | [] => Option.none
  | c :: rest =>
    match decCapture (c :: rest) with
    | some cap => some cap
    | Option.none => decSearch rest

/-- Python built-in `str()` of a scalar value. -/
def pyStr (v : PyVal) : String :=
  match v with
  | .str s => s
  | .bool b => if b then "True" else "False"
  | .int n => String.mk (pyIntStr n)
  | .float t => t
  | .dec d => Dec.toSciString d
  | .none => "None"

/-- `_TypesHandler.__type_parser`: decimal-literal pattern first (an
invalid captured group raises `InvalidOperation`, uncaught), otherwise
the generic literal parse, retaining the text when that parse raises
`ValueError` and propagating a `SyntaxError`. -/
def typeParser (s : String) : Except PyErr PyVal :=
  match decSearch s.toList with
  | some cap =>
    match Dec.ofString (String.mk cap) with
    | some d => .ok (.dec d)
    | Option.none => .error .invalidOperation
  | Option.none =>
    match literalEval s with
    | .ok v => .ok v
    | .valueError => .ok (.str s)
    | .syntaxError => .error .syntaxError

/-- `_TypesHandler.__to_decimal`: floats convert through their `str`
form; an `InvalidOperation` is re-raised as `TypeError`; `Decimal(None)`
raises `TypeError` directly. -/
def toDecimal (v : PyVal) : Except PyErr PyVal :=
  match v with
  | .float t =>
    match Dec.ofString t with
    | some d => .ok (.dec d)
    | Option.none => .error .typeError
  | .dec d => .ok (.dec d)
  | .int n => .ok (.dec (Dec.ofInt n))
  | .bool b => .ok (.dec (Dec.ofInt (if b then 1 else 0)))
  | .str s =>
    match Dec.ofString s with
    | some d => .ok (.dec d)
    | Option.none => .error .typeError
  | .none => .error .typeError

/-- `_TypesHandler.__to_string`: a decimal renders as its
`Decimal('...')` literal, a string stays itself, anything else renders
via `str()`. -/
def toPyString (v : PyVal) : PyVal :=
  match v with
  | .str s => .str s
  | .dec d => .str ("Decimal('" ++ Dec.toSciString d ++ "')")
  | v => .str (pyStr v)

/-- The quoting applied by `_TypesHandler.__quote` to a string: single
quotes, or double quotes when the string already contains a single
quote. -/
def pyQuote (s : String) : String :=
  if s.toList.contains '\'' then "\"" ++ s ++ "\"" else "'" ++ s ++ "'"

/-- `_TypesHandler.__quote`: quoting a non-string raises `TypeError`. -/
def quoteVal (v : PyVal) : Except PyErr PyVal :=
  match v with
  | .str s => .ok (.str (pyQuote s))
  | _ => .error .typeError

/-- `_TypesHandler.__types_converting`: a string argument is first run
through the literal parser, then the dispatch table applies the selected
transforms in the fixed order decimal-coercion, stringification,
quoting. -/
def typesConverting (v : PyVal) (asDecimal asString quoting : Bool) :
    Except PyErr PyVal := do
  let v ← match v with
    | .str s => typeParser s
    | v => pure v
  match asDecimal, asString, quoting with
  | false, false, false => pure v
  | true, false, false => toDecimal v
  | false, true, false => pure (toPyString v)
  | false, false, true => quoteVal v
  | true, true, false => do pure (toPyString (← toDecimal v))
  | false, true, true => quoteVal (toPyString v)
  | true, false, true => do quoteVal (← toDecimal v)
  | true, true, true => do quoteVal (toPyString (← toDecimal v))

/-- `TypesManager.__new__`: runs the handler and rebuilds the value with
`type(value)(value)`, which is the identity on every scalar kind and
returns `None` for `None`. -/
def typesManager (v : PyVal) (asDecimal asString quoting : Bool) :
    Except PyErr PyVal :=
  typesConverting v asDecimal asString quoting

/-! ## `config_manager`: the flat-file configuration store

The regex `rf'(?P<name>{param}) = (?P<value>.+)\n'` is modelled for plain
(metacharacter-free) parameter names, which is the entire pre-declared
vocabulary.  The search is unanchored, exactly as in the source. -/

/-- Try to match the config-line pattern at the current position: the
parameter name, `\x20=\x20`, a nonempty newline-free greedy value group,
a newline. -/
def cfgMatchAt (param : List Char) (cs : List Char) : Option (List Char) :=
  if (param ++ (" = ".toList)).isPrefixOf cs then
    let rest := cs.drop (param.length + 3)
    let v := rest.takeWhile (· ≠ '\n')
    if v ≠ [] ∧ (rest.dropWhile (· ≠ '\n')).head? = some '\n' then some v
    else Option.none
  else Option.none

/-- `re.search` of the config-line pattern: leftmost match anywhere in
the file, returning the value group. -/
def cfgSearch (param : List Char) : List Char → Option (List Char)
  | [] => Option.none
  | c :: rest =>
    match cfgMatchAt param (c :: rest) with
    | some v => some v
    | Option.none => cfgSearch param rest

/-- Python `str.replace(old, new, 1)`: replace the first occurrence
only. -/
def replaceFirst (tgt repl : List Char) : List Char → List Char
  | [] => if tgt = [] then repl else []
  | c :: cs =>
    if tgt.isPrefixOf (c :: cs) then repl ++ (c :: cs).drop tgt.length
    else c :: replaceFirst tgt repl cs

/-- `noStart pat pre tail = true` iff no occurrence of `pat` begins at
any position inside the `pre` segment of the file `pre ++ tail`.  For
`pat` the pattern head `param ++ "\x20=\x20"` this says exactly that the
occurrence at the start of `tail` is the leftmost one — the occurrence
`re.search` matches. -/
def noStart (pat : List Char) : List Char → List Char → Bool
  | [], _ => true
  | c :: p, tail => !(pat.isPrefixOf (c :: (p ++ tail))) && noStart pat p tail

/-- Write-path encoding of `config_manager` in the `shortcircuitcalc`
package: the new value is first normalized by `TypesManager` (which
parses strings), then a string result is re-encoded with `quoting=True`
(re-parsing it) and any other type with `as_string=True` (the `KeyError`
fallback of the `__formats` table). -/
def cfgRenderNew (newVal : PyVal) : Except PyErr PyVal := do
  let nv ← typesManager newVal false false false
  match nv with
  | .str _ => typesManager nv false false true
  | _ => typesManager nv false true false

/-- `config_manager` of the `shortcircuitcalc` package, on an in-memory
file: returns the updated file contents and the result value
(`PyVal.none` is both Python `None` — also the "no new value" default —
and the absent-parameter result, exactly as in Python). -/
def configManager (param : String) (newVal : PyVal) (file : String) :
    String × Except PyErr PyVal :=
  match cfgSearch param.toList file.toList with
  | Option.none => (file, .ok .none)
  | some v =>
    if newVal = .none then
      (file, typesManager (.str (String.mk v)) false false false)
    else
      match cfgRenderNew newVal with
      | .error e => (file, .error e)
      | .ok rv =>
        let oldSeg := param.toList ++ (" = ".toList) ++ v
        let newSeg := param.toList ++ (" = ".toList) ++ (pyStr rv).toList
        (String.mk (replaceFirst oldSeg newSeg file.toList), .ok .none)

/-- Write-path encoding of `config_manager` in the `ShortCircuitCalc`
package: the raw argument's type selects the format — strings are
quoted, decimals stringified, anything else is rendered by the f-string
via `str()`. -/
def cfgRenderNewSCC (newVal : PyVal) : Except PyErr PyVal :=
  match newVal with
  | .str _ => typesManager newVal false false true
  | .dec _ => typesManager newVal false true false
  | v => .ok v

/-- `config_manager` of the `ShortCircuitCalc` package, on an in-memory
file. -/
def configManagerSCC (param : String) (newVal : PyVal) (file : String) :
    String × Except PyErr PyVal :=
  match cfgSearch param.toList file.toList with
  | Option.none => (file, .ok .none)
  | some v =>
    if newVal = .none then
      (file, typesManager (.str (String.mk v)) false false false)
    else
      match cfgRenderNewSCC newVal with
      | .error e => (file, .error e)
      | .ok rv =>
        let oldSeg := param.toList ++ (" = ".toList) ++ v
        let newSeg := param.toList ++ (" = ".toList) ++ (pyStr rv).toList
        (String.mk (replaceFirst oldSeg newSeg file.toList), .ok .none)

/-! ## `db_access`: the connection resolver (`ShortCircuitCalc` package) -/

/-- Credentials parsed from the credentials JSON artifact. -/
structure Creds where
  login : String
  password : String
  dbName : String
deriving DecidableEq, Repr

/-- Process and filesystem state seen by `db_access`: the config file
contents, the optional credentials artifact, the standalone SQLite file,
the import-time constants `ROOT_DIR` and `SQLITE_DB_NAME`, the memoized
`db_access.engine_string` attribute, and access counters for the config
store and the credentials artifact. -/
structure DbState where
  config : String
  creds : Option Creds
  sqliteFileExists : Bool
  rootDir : String
  sqliteDbName : String
  memo : Option String
  configAccesses : Nat
  credAccesses : Nat
deriving DecidableEq, Repr

/-- A `config_manager` call made by the resolver: counts the
config-store access and threads the file contents. -/
def dbConfigCall (st : DbState) (param : String) (newVal : PyVal) :
    DbState × Except PyErr PyVal :=
  let r := configManagerSCC param newVal st.config
  ({ st with config := r.1, configAccesses := st.configAccesses + 1 }, r.2)

/-- `__mysql_access`: open the credentials artifact (absence raises
`FileNotFoundError`), build the engine string, delete any standalone
SQLite database file, persist `MySQL` when the stored tag differs. -/
def mysqlAccess (st : DbState) : DbState × Except PyErr String :=
  let st := { st with credAccesses := st.credAccesses + 1 }
  match st.creds with
  | Option.none => (st, .error .fileNotFoundError)
  | some c =>
    let engineString :=
      "mysql+pymysql://" ++ c.login ++ ":" ++ c.password ++ "@localhost/"
        ++ c.dbName ++ "?charset=utf8mb4"
    let st := { st with sqliteFileExists := false }
    let p := dbConfigCall st "DB_EXISTING_CONNECTION" .none
    match p.2 with
    | .error e => (p.1, .error e)
    | .ok v =>
      if v ≠ .str "MySQL" then
        let q := dbConfigCall p.1 "DB_EXISTING_CONNECTION" (.str "MySQL")
        match q.2 with
        | .error e => (q.1, .error e)
        | .ok _ => (q.1, .ok engineString)
      else (p.1, .ok engineString)

/-- `__sqlite_access`: persist `SQLite` when the stored tag differs and
build the SQLite engine string. -/
def sqliteAccess (st : DbState) : DbState × Except PyErr String :=
  let p := dbConfigCall st "DB_EXISTING_CONNECTION" .none
  match p.2 with
  | .error e => (p.1, .error e)
  | .ok v =>
    let q :=
      if v ≠ .str "SQLite" then dbConfigCall p.1 "DB_EXISTING_CONNECTION" (.str "SQLite")
      else (p.1, .ok .none)
    match q.2 with
    | .error e => (q.1, .error e)
    | .ok _ => (q.1, .ok ("sqlite:///" ++ st.rootDir ++ "/" ++ st.sqliteDbName))

/-- `__no_db_access`: try MySQL; on `FileNotFoundError` (and only that)
fall back to SQLite. -/
def noDbAccess (st : DbState) : DbState × Except PyErr String :=
  let p := mysqlAccess st
  match p.2 with
  | .error .fileNotFoundError => sqliteAccess p.1
  | r => (p.1, r)

/-- `db_access`, with explicit fuel for its self-call inside the
`except FileNotFoundError` handler (the fuel is never exhausted on the
states reachable in this model; exhaustion stands for Python's
`RecursionError`).  The stored-tag dictionary lookup recognizes `False`
(and, by Python `dict` semantics, the equal key `0`), `'MySQL'` and
`'SQLite'`; any other stored value raises an uncaught `KeyError`. -/
def dbAccess (fuel : Nat) (st : DbState) : DbState × Except PyErr String :=
  match st.memo with
  | some s => (st, .ok s)
  | Option.none =>
    let attempt : DbState × Except PyErr String :=
      if st.creds.isSome then mysqlAccess st
      else
        let p := dbConfigCall st "DB_EXISTING_CONNECTION" .none
        match p.2 with
        | .error e => (p.1, .error e)
        | .ok (.bool false) => noDbAccess p.1
        | .ok (.int 0) => noDbAccess p.1
        | .ok (.str "MySQL") => mysqlAccess p.1
        | .ok (.str "SQLite") => sqliteAccess p.1
        | .ok _ => (p.1, .error .keyError)
    match attempt with
    | (st1, .ok s) => ({ st1 with memo := some s }, .ok s)
    | (st1, .error .fileNotFoundError) =>
      let w := dbConfigCall st1 "DB_EXISTING_CONNECTION" (.bool false)
      match w.2 with
      | .error e => (w.1, .error e)
      | .ok _ =>
        match fuel with
        | 0 => (w.1, .error .otherError)
        | fuel + 1 =>
          let q := dbAccess fuel w.1
          match q.2 with
          | .ok s => (q.1, .ok s)
          | .error e => (q.1, .error e)
    | (st1, .error e) => (st1, .error e)

/-! ## `session_scope` (`shortcircuitcalc` package) -/

/-- Events performed on the SQLAlchemy session. -/
inductive SEvent where
  | pragma
  | commit
  | rollback
  | close
deriving DecidableEq, Repr

/-- Outcome of the caller's unit of work inside `session_scope`. -/
inductive Work where
  | ok
  | opError
  | otherError
deriving DecidableEq, Repr

/-- `session_scope`: the `try` body reads the backend tag through
`config_manager`, issues the SQLite foreign-key pragma when it equals
`'SQLite'`, runs the unit of work and commits; `OperationalError` alone
is rolled back and re-raised; the `finally` closes the session on every
path.  The pragma and the commit themselves are modelled as succeeding —
their failures are part of the unit-of-work outcome. -/
def sessionScope (cfgFile : String) (work : Work) :
    List SEvent × Except PyErr Unit :=
  let body : List SEvent × Except PyErr Unit :=
    match (configManager "DB_EXISTING_CONNECTION" .none cfgFile).2 with
    | .error e => ([], .error e)
    | .ok v =>
      let pr : List SEvent := if v = .str "SQLite" then [.pragma] else []
      match work with
      | .ok => (pr ++ [.commit], .ok ())
      | .opError => (pr, .error .operationalError)
      | .otherError => (pr, .error .otherError)
  match body with
  | (evs, .error .operationalError) =>
    (evs ++ [.rollback, .close], .error .operationalError)
  | (evs, .error e) => (evs ++ [.close], .error e)
  | (evs, .ok _) => (evs ++ [.close], .ok ())

/-! ## Supporting lemmas about the parsers and the store -/

theorem isPrefixOf_append {α} [DecidableEq α] (a b : List α) :
    a.isPrefixOf (a ++ b) = true := by
  rw [List.isPrefixOf_iff_prefix]
  exact ⟨b, rfl⟩

theorem decCapture_wrapped (X : List Char) (hne : X ≠ [])
    (hq : ∀ c ∈ X, c ≠ '\'') :
    decCapture (("Decimal('".toList) ++ X ++ ['\'', ')']) = some X := by
  have key : ("Decimal('".toList) ++ X ++ ['\'', ')'] =
      ("Decimal('".toList) ++ (X ++ ['\'', ')']) := List.append_assoc _ _ _
  rw [key]
  unfold decCapture
  rw [if_pos (isPrefixOf_append _ _)]
  rw [List.drop_left' (by decide : ("Decimal('".toList).length = 9)]
  have ht : (X ++ ['\'', ')']).takeWhile (· ≠ '\'') = X := by
    rw [takeWhile_append_all _ _ _ (by intro c hc; simp [hq c hc])]
    simp
  have hd : (X ++ ['\'', ')']).dropWhile (· ≠ '\'') = ['\'', ')'] := by
    rw [dropWhile_append_all _ _ _ (by intro c hc; simp [hq c hc])]
    simp
  dsimp only
  rw [ht, hd]
  rw [if_pos ⟨hne, rfl, rfl⟩]

theorem decSearch_cons_some (c : Char) (rest : List Char) (cap : List Char)
    (h : decCapture (c :: rest) = some cap) :
    decSearch (c :: rest) = some cap := by
  unfold decSearch
  rw [h]

theorem decSearch_wrapped (X : List Char) (hne : X ≠ [])
    (hq : ∀ c ∈ X, c ≠ '\'') :
    decSearch (("Decimal('".toList) ++ X ++ ['\'', ')']) = some X := by
  have hcons : ("Decimal('".toList) ++ X ++ ['\'', ')'] =
      'D' :: (("ecimal('".toList) ++ X ++ ['\'', ')']) := rfl
  rw [hcons]
  exact decSearch_cons_some _ _ _ (by rw [← hcons]; exact decCapture_wrapped X hne hq)

theorem decCapture_none_head (c : Char) (rest : List Char) (h : c ≠ 'D') :
    decCapture (c :: rest) = Option.none := by
  unfold decCapture
  rw [if_neg]
  intro hcon
  rw [List.isPrefixOf_iff_prefix] at hcon
  obtain ⟨t, ht⟩ := hcon
  have : 'D' = c := by
    have := congrArg List.head? ht
    simpa using this
  exact h this.symm

theorem decSearch_none_no_D (cs : List Char) (h : ∀ c ∈ cs, c ≠ 'D') :
    decSearch cs = Option.none := by
  induction cs with
  | nil => rfl
  | cons c rest ih =>
    unfold decSearch
    rw [decCapture_none_head c rest (h c (by simp))]
    exact ih fun x hx => h x (by simp [hx])

theorem digitChar_misc (k : Nat) (h : k < 10) :
    isSpaceTab (digitChar k) = false ∧ digitChar k ≠ '-' ∧ digitChar k ≠ '+' ∧
      digitChar k ≠ 'D' := by
  interval_cases k <;> exact ⟨by decide, by decide, by decide, by decide⟩

theorem digitChar_ne_zero_char (k : Nat) (h : k < 10) (hk : k ≠ 0) :
    digitChar k ≠ '0' := by
  interval_cases k <;> first | omega | decide

theorem scanExpTail_nil : scanExpTail [] = .noExp := rfl

theorem pyNatStr_head_digitChar (m : Nat) :
    ∃ k t, pyNatStr m = digitChar k :: t ∧ k < 10 ∧ (m ≠ 0 → k ≠ 0) := by
  have hlen := natDigits_pos_len m
  cases hnd : natDigits m with
  | nil => rw [hnd] at hlen; simp at hlen
  | cons k t =>
    refine ⟨k, t.map digitChar, ?_, ?_, ?_⟩
    · unfold pyNatStr
      rw [hnd]
      rfl
    · exact natDigits_lt_ten m k (by rw [hnd]; simp)
    · intro hm
      exact natDigits_head_ne_zero m hm k (by rw [hnd]; rfl)

theorem scanNumber_pyNatStr (m : Nat) :
    scanNumber (pyNatStr m) = .num false (pyNatStr m) [] := by
  have htw : (pyNatStr m).takeWhile Char.isDigit = pyNatStr m :=
    takeWhile_eq_self_all _ _ (pyNatStr_all_isDigit m)
  have hdw : (pyNatStr m).dropWhile Char.isDigit = [] :=
    dropWhile_eq_nil_all _ _ (pyNatStr_all_isDigit m)
  unfold scanNumber
  simp only [htw, hdw]
  rw [if_neg (by simp [pyNatStr_ne_nil m])]
  rw [if_neg (by simp)]
  rw [scanExpTail_nil]
  rw [if_neg]
  rcases Nat.eq_zero_or_pos m with hm | hm
  · subst hm
    intro hcon
    exact hcon.2 (by decide)
  · obtain ⟨k, t, hk, hk10, hkz⟩ := pyNatStr_head_digitChar m
    intro hcon
    rw [hk] at hcon
    have h0 : digitChar k = '0' := by
      have := hcon.1
      simpa using this
    exact digitChar_ne_zero_char k hk10 (hkz (by omega)) h0

theorem leAtom_pyNatStr (m : Nat) :
    leAtom (pyNatStr m) = .ok (PyVal.int m) [] := by
  unfold leAtom
  rw [scanNumber_pyNatStr]
  simp only [reduceIte, Bool.false_eq_true, if_false]
  rw [digitsOfChars_pyNatStr]

theorem dropWhile_spaceTab_pyNatStr (m : Nat) :
    (pyNatStr m).dropWhile isSpaceTab = pyNatStr m := by
  apply dropWhile_eq_self_head
  intro x hx
  obtain ⟨k, t, hk, hk10, _⟩ := pyNatStr_head_digitChar m
  rw [hk] at hx
  simp at hx
  subst hx
  simp [(digitChar_misc k hk10).1]

theorem pyNatStr_head_ne_sign (m : Nat) :
    (pyNatStr m).head? ≠ some '-' ∧ (pyNatStr m).head? ≠ some '+' := by
  obtain ⟨k, t, hk, hk10, _⟩ := pyNatStr_head_digitChar m
  rw [hk]
  constructor
  · simp
    exact (digitChar_misc k hk10).2.1
  · simp
    exact (digitChar_misc k hk10).2.2.1

theorem leSignedF_not_sign (fuel : Nat) (neg : Bool) (cs : List Char)
    (h : ¬ (cs.head? = some '-' ∨ cs.head? = some '+')) :
    leSignedF fuel neg cs = leSignedAtom neg cs := by
  cases fuel with
  | zero => rfl
  | succ fuel =>
    unfold leSignedF
    rw [if_neg h]

theorem literalEval_pyNat (m : Nat) :
    literalEval (String.mk (pyNatStr m)) = .ok (PyVal.int m) := by
  unfold literalEval
  have htl : (String.mk (pyNatStr m)).toList = pyNatStr m := rfl
  rw [htl, dropWhile_spaceTab_pyNatStr]
  rw [if_neg (pyNatStr_head_ne_sign m).1, if_neg (pyNatStr_head_ne_sign m).2]
  rw [leAtom_pyNatStr]
  rfl

theorem literalEval_pyIntStr (n : Int) :
    literalEval (String.mk (pyIntStr n)) = .ok (PyVal.int n) := by
  unfold pyIntStr
  by_cases hn : n < 0
  · rw [if_pos hn]
    unfold literalEval
    have htl : (String.mk ('-' :: pyNatStr n.natAbs)).toList =
        '-' :: pyNatStr n.natAbs := rfl
    rw [htl]
    have hdw : ('-' :: pyNatStr n.natAbs).dropWhile isSpaceTab =
        '-' :: pyNatStr n.natAbs := by
      apply dropWhile_eq_self_head
      intro x hx
      simp at hx
      subst hx
      decide
    rw [hdw]
    rw [if_pos (by rfl)]
    have ht : ('-' :: pyNatStr n.natAbs).tail = pyNatStr n.natAbs := rfl
    rw [ht, dropWhile_spaceTab_pyNatStr]
    unfold leSigned
    rw [leSignedF_not_sign _ _ _ (by
      intro hcon
      rcases hcon with h | h
      · exact (pyNatStr_head_ne_sign _).1 h
      · exact (pyNatStr_head_ne_sign _).2 h)]
    unfold leSignedAtom
    rw [leAtom_pyNatStr]
    simp [leFinish]
    rw [abs_of_nonpos (by omega : n ≤ 0)]
    omega
  · rw [if_neg hn]
    rw [literalEval_pyNat]
    have : ((n.natAbs : Int)) = n := by omega
    rw [this]

theorem pyIntStr_no_D (n : Int) : ∀ c ∈ pyIntStr n, c ≠ 'D' := by
  intro c hc
  unfold pyIntStr at hc
  have hnat : ∀ x ∈ pyNatStr n.natAbs, x ≠ 'D' := by
    intro x hx
    obtain ⟨k, hk10, rfl⟩ := Dec.mem_pyNatStr_cases _ x hx
    exact (digitChar_misc k hk10).2.2.2
  split at hc
  · rcases List.mem_cons.mp hc with rfl | hc
    · decide
    · exact hnat c hc
  · exact hnat c hc

/-- Decoding the canonical printed form of an integer recovers it: the
decimal-pattern search finds nothing and the literal parse returns the
integer. -/
theorem typeParser_pyIntStr (n : Int) :
    typeParser (String.mk (pyIntStr n)) = .ok (PyVal.int n) := by
  unfold typeParser
  have htl : (String.mk (pyIntStr n)).toList = pyIntStr n := rfl
  rw [htl, decSearch_none_no_D _ (pyIntStr_no_D n)]
  rw [literalEval_pyIntStr]

theorem cfgMatchAt_decomp (param v rest : List Char) (hv : v ≠ [])
    (hnl : ∀ c ∈ v, c ≠ '\n') :
    cfgMatchAt param (param ++ (" = ".toList) ++ (v ++ '\n' :: rest)) = some v := by
  have key : param ++ (" = ".toList) ++ (v ++ '\n' :: rest) =
      (param ++ (" = ".toList)) ++ (v ++ '\n' :: rest) := rfl
  unfold cfgMatchAt
  rw [key]
  rw [if_pos (isPrefixOf_append _ _)]
  rw [List.drop_left' (show (param ++ (" = ".toList)).length = param.length + 3 by
    rw [List.length_append]
    rfl)]
  dsimp only
  have ht : (v ++ '\n' :: rest).takeWhile (fun x => decide (x ≠ '\n')) = v := by
    rw [takeWhile_append_all _ _ _ (by intro c hc; simp [hnl c hc])]
    simp
  have hd : (v ++ '\n' :: rest).dropWhile (fun x => decide (x ≠ '\n')) = '\n' :: rest := by
    rw [dropWhile_append_all _ _ _ (by intro c hc; simp [hnl c hc])]
    simp
  rw [ht, hd]
  rw [if_pos ⟨hv, rfl⟩]

theorem cfgMatchAt_some_decomp (param cs v : List Char)
    (h : cfgMatchAt param cs = some v) :
    ∃ rest, cs = param ++ (" = ".toList) ++ (v ++ '\n' :: rest) ∧ v ≠ [] ∧
      ∀ c ∈ v, c ≠ '\n' := by
  unfold cfgMatchAt at h
  split at h
  · next hp =>
    dsimp only at h
    split at h
    · next hcond =>
      obtain ⟨hvne, hdwh⟩ := hcond
      rw [Option.some.injEq] at h
      rw [List.isPrefixOf_iff_prefix] at hp
      obtain ⟨t, ht⟩ := hp
      have hdrop : cs.drop (param.length + 3) = t := by
        rw [← ht]
        exact List.drop_left' (by rw [List.length_append]; rfl)
      rw [hdrop] at h hdwh hvne
      obtain ⟨tl, htl⟩ : ∃ tl, t.dropWhile (fun x => decide (x ≠ '\n')) = '\n' :: tl := by
        cases hdw : t.dropWhile (fun x => decide (x ≠ '\n')) with
        | nil => rw [hdw] at hdwh; simp at hdwh
        | cons x xs =>
          rw [hdw] at hdwh
          simp at hdwh
          subst hdwh
          exact ⟨xs, rfl⟩
      refine ⟨tl, ?_, ?_, ?_⟩
      · rw [← ht]
        have : t = v ++ '\n' :: tl := by
          rw [← h, ← htl]
          exact (List.takeWhile_append_dropWhile _ _).symm
        rw [this]
      · rw [h] at hvne
        exact hvne
      · intro c hc
        rw [← h] at hc
        have := List.mem_takeWhile_imp hc
        simpa using this
    · simp at h
  · simp at h

theorem cfgSearch_some_decomp (param : List Char) :
    ∀ (file v : List Char), cfgSearch param file = some v →
      ∃ pre rest, file = pre ++ (param ++ (" = ".toList) ++ (v ++ '\n' :: rest)) ∧
        v ≠ [] ∧ ∀ c ∈ v, c ≠ '\n' := by
  intro file
  induction file with
  | nil =>
    intro v h
    simp [cfgSearch] at h
  | cons c cs ih =>
    intro v h
    unfold cfgSearch at h
    rcases hm : cfgMatchAt param (c :: cs) with _ | w
    · rw [hm] at h
      obtain ⟨pre, rest, hfile, hvne, hnl⟩ := ih v h
      exact ⟨c :: pre, rest, by rw [List.cons_append, hfile], hvne, hnl⟩
    · rw [hm] at h
      rw [Option.some.injEq] at h
      subst h
      obtain ⟨rest, hcs, hvne, hnl⟩ := cfgMatchAt_some_decomp param _ _ hm
      exact ⟨[], rest, by rw [List.nil_append]; exact hcs, hvne, hnl⟩

theorem cfgSearch_head_decomp (param v rest : List Char) (hv : v ≠ [])
    (hnl : ∀ c ∈ v, c ≠ '\n') :
    cfgSearch param (param ++ (" = ".toList) ++ (v ++ '\n' :: rest)) = some v := by
  have hm := cfgMatchAt_decomp param v rest hv hnl
  have hne : param ++ (" = ".toList) ++ (v ++ '\n' :: rest) ≠ [] := by
    intro hcon
    rcases List.append_eq_nil.mp hcon with ⟨h1, _⟩
    rcases List.append_eq_nil.mp h1 with ⟨_, h2⟩
    exact absurd h2 (by decide)
  obtain ⟨c, t, hct⟩ := List.exists_cons_of_ne_nil hne
  rw [hct] at hm ⊢
  unfold cfgSearch
  rw [hm]

theorem replaceFirst_on_pref (tgt repl rest : List Char) (hne : tgt ≠ []) :
    replaceFirst tgt repl (tgt ++ rest) = repl ++ rest := by
  cases tgt with
  | nil => exact absurd rfl hne
  | cons t ts =>
    show replaceFirst (t :: ts) repl (t :: (ts ++ rest)) = _
    unfold replaceFirst
    rw [if_pos (show (t :: ts).isPrefixOf (t :: (ts ++ rest)) = true from
      isPrefixOf_append (t :: ts) rest)]
    congr 1
    exact (show List.drop (t :: ts).length ((t :: ts) ++ rest) = rest from
      List.drop_left (t :: ts) rest)

theorem cfgSearch_interior (param v rest : List Char) (hv : v ≠ [])
    (hnl : ∀ c ∈ v, c ≠ '\n') :
    ∀ pre, noStart (param ++ (" = ".toList)) pre
        (param ++ (" = ".toList) ++ (v ++ '\n' :: rest)) = true →
      cfgSearch param (pre ++ (param ++ (" = ".toList) ++ (v ++ '\n' :: rest))) =
        some v := by
  intro pre
  induction pre with
  | nil =>
    intro _
    rw [List.nil_append]
    exact cfgSearch_head_decomp param v rest hv hnl
  | cons c p ih =>
    intro hns
    have hns' : ((!((param ++ (" = ".toList)).isPrefixOf
        (c :: (p ++ (param ++ (" = ".toList) ++ (v ++ '\n' :: rest)))))) &&
        noStart (param ++ (" = ".toList)) p
          (param ++ (" = ".toList) ++ (v ++ '\n' :: rest))) = true := hns
    rw [Bool.and_eq_true, Bool.not_eq_true'] at hns'
    obtain ⟨h1, h2⟩ := hns'
    show cfgSearch param
        (c :: (p ++ (param ++ (" = ".toList) ++ (v ++ '\n' :: rest)))) = some v
    unfold cfgSearch
    have hm : cfgMatchAt param
        (c :: (p ++ (param ++ (" = ".toList) ++ (v ++ '\n' :: rest)))) =
        Option.none := by
      unfold cfgMatchAt
      rw [if_neg (by rw [h1]; exact Bool.false_ne_true)]
    rw [hm]
    exact ih h2

theorem replaceFirst_interior (pat tgt repl rest : List Char)
    (hpt : pat.isPrefixOf tgt = true) (hne : tgt ≠ []) :
    ∀ pre, noStart pat pre (tgt ++ rest) = true →
      replaceFirst tgt repl (pre ++ (tgt ++ rest)) = pre ++ (repl ++ rest) := by
  intro pre
  induction pre with
  | nil =>
    intro _
    rw [List.nil_append, List.nil_append]
    exact replaceFirst_on_pref tgt repl rest hne
  | cons c p ih =>
    intro hns
    have hns' : ((!(pat.isPrefixOf (c :: (p ++ (tgt ++ rest))))) &&
        noStart pat p (tgt ++ rest)) = true := hns
    rw [Bool.and_eq_true, Bool.not_eq_true'] at hns'
    obtain ⟨h1, h2⟩ := hns'
    have htgt : tgt.isPrefixOf (c :: (p ++ (tgt ++ rest))) = false := by
      cases hb : tgt.isPrefixOf (c :: (p ++ (tgt ++ rest))) with
      | false => rfl
      | true =>
        exfalso
        have hp : pat <+: (c :: (p ++ (tgt ++ rest))) :=
          List.IsPrefix.trans (List.isPrefixOf_iff_prefix.mp hpt)
            (List.isPrefixOf_iff_prefix.mp hb)
        rw [← List.isPrefixOf_iff_prefix, h1] at hp
        exact Bool.false_ne_true hp
    show replaceFirst tgt repl (c :: (p ++ (tgt ++ rest))) =
        c :: (p ++ (repl ++ rest))
    unfold replaceFirst
    rw [if_neg (by rw [htgt]; exact Bool.false_ne_true)]
    rw [ih h2]

theorem typesManager_str_noflags (s : String) :
    typesManager (PyVal.str s) false false false = typeParser s := by
  unfold typesManager typesConverting
  rcases h : typeParser s with e | v <;> simp [h]

/-- Decoding the `Decimal('...')` literal printed for a well-formed
decimal recovers it: the regex search captures the printed digits and the
`Decimal` constructor parses them back. -/
theorem typeParser_decLiteral (d : Dec) (hwf : Dec.WF d) :
    typeParser ("Decimal('" ++ Dec.toSciString d ++ "')") = .ok (PyVal.dec d) := by
  obtain ⟨h10, hne, hlz⟩ := hwf
  unfold typeParser
  have htl : ("Decimal('" ++ Dec.toSciString d ++ "')").toList =
      ("Decimal('".toList) ++ Dec.toSciChars d ++ ['\'', ')'] := by
    show (("Decimal('" ++ Dec.toSciString d) ++ "')").data = _
    rw [String.data_append, String.data_append]
    rfl
  rw [htl]
  rw [decSearch_wrapped _ (Dec.toSciChars_ne_nil d hne)
    (Dec.mem_toSciChars_ne_quote d h10)]
  have hmk : String.mk (Dec.toSciChars d) = Dec.toSciString d := rfl
  dsimp only
  rw [hmk]
  rw [Dec.ofString_toSciString d ⟨h10, hne, hlz⟩]

/-! ## Claim theorems -/

deriving instance DecidableEq for Except

/-- Boolean test for the string kind of a value. -/
def PyVal.isStrKind : PyVal → Bool
  | .str _ => true
  | _ => false

/-- C2: with no credentials artifact and the stored backend tag equal to
the unset sentinel `False`, the first resolution selects the secondary
(SQLite) backend, persists `'SQLite'` into the store, memoizes and
returns the SQLite connection string (three store accesses, one
credentials access); and any resolution on a memoized state returns the
cached string with the state — in particular every access counter —
unchanged. -/
theorem C2_fallback_and_memoization :
    ∀ (fuel : Nat) (b : Bool) (r n : String) (ca cra : Nat),
      dbAccess fuel
          ⟨"DB_EXISTING_CONNECTION = False\n", Option.none, b, r, n,
            Option.none, ca, cra⟩ =
        (⟨"DB_EXISTING_CONNECTION = 'SQLite'\n", Option.none, b, r, n,
            some ("sqlite:///" ++ r ++ "/" ++ n), ca + 1 + 1 + 1, cra + 1⟩,
          .ok ("sqlite:///" ++ r ++ "/" ++ n)) ∧
      ∀ (st : DbState) (s : String), st.memo = some s →
        dbAccess fuel st = (st, .ok s) := by
  intro fuel b r n ca cra
  constructor
  · cases fuel <;> rfl
  · intro st s h
    cases fuel <;> (unfold dbAccess; rw [h])

/-- C2 witness: the memoized branch at the concrete post-fallback
state. -/
theorem C2_fallback_and_memoization_witness :
    dbAccess 2
        ⟨"DB_EXISTING_CONNECTION = 'SQLite'\n", Option.none, true, "R", "a.db",
          some "sqlite:///R/a.db", 3, 1⟩ =
      (⟨"DB_EXISTING_CONNECTION = 'SQLite'\n", Option.none, true, "R", "a.db",
          some "sqlite:///R/a.db", 3, 1⟩, .ok "sqlite:///R/a.db") :=
  (C2_fallback_and_memoization 2 true "R" "a.db" 0 0).2 _ _ rfl

/-- C3: when the stored backend tag is an unrecognized token (here
`'Postgres'`) and no credentials artifact exists, `db_access` raises an
uncaught `KeyError` from the `connection_types` dictionary lookup after a
single store read: the stored state is NOT reset to the unset sentinel
and no retry happens, contradicting both the claim and the function's own
docstring ("If the configuration specifies an unsupported database
connection type, it resets the configuration parameter..."). -/
theorem C3_invalid_state_raises_keyerror :
    ∀ (fuel : Nat) (b : Bool) (r n : String) (ca cra : Nat),
      dbAccess fuel
          ⟨"DB_EXISTING_CONNECTION = 'Postgres'\n", Option.none, b, r, n,
            Option.none, ca, cra⟩ =
        (⟨"DB_EXISTING_CONNECTION = 'Postgres'\n", Option.none, b, r, n,
            Option.none, ca + 1, cra⟩, .error .keyError) := by
  intro fuel b r n ca cra
  cases fuel <;> rfl

/-- C10: calling `config_manager` with `None` as the new value — the
same call shape as `set(name, None)` — always performs a read: the file
is never modified, a matched line's value is decoded and returned, and an
absent name yields `None`; so no stored parameter can ever be overwritten
with `None`. -/
theorem C10_none_never_written :
    ∀ (param file : String),
      (configManager param PyVal.none file).1 = file ∧
      (∀ v, cfgSearch param.toList file.toList = some v →
        (configManager param PyVal.none file).2 =
          typesManager (PyVal.str (String.mk v)) false false false) ∧
      (cfgSearch param.toList file.toList = Option.none →
        (configManager param PyVal.none file).2 = .ok PyVal.none) := by
  intro param file
  refine ⟨?_, ?_, ?_⟩
  · unfold configManager
    rcases hs : cfgSearch param.toList file.toList with _ | v
    · rfl
    · rfl
  · intro v hs
    unfold configManager
    rw [hs]
    rfl
  · intro hs
    unfold configManager
    rw [hs]

/-- C10 witness: a concrete read through the `None` call shape. -/
theorem C10_none_never_written_witness :
    (configManager "A" PyVal.none "A = 5\n").2 =
      typesManager (PyVal.str (String.mk ['5'])) false false false :=
  (C10_none_never_written "A" "A = 5\n").2.1 ['5'] (by decide)

/-- C9: in `session_scope`, the session is closed exactly once and last
on every exit path; a rollback happens exactly when the overall outcome
is the engine's operational failure; and when the backend-tag read
succeeds, an operational failure of the unit of work is rolled back and
re-raised, any other exception propagates (without rollback, by the
previous part), and a clean unit of work commits. -/
theorem C9_session_scope_paths :
    ∀ (cfgFile : String) (w : Work),
      ((sessionScope cfgFile w).1.getLast? = some SEvent.close) ∧
      ((sessionScope cfgFile w).1.count SEvent.close = 1) ∧
      (SEvent.rollback ∈ (sessionScope cfgFile w).1 ↔
        (sessionScope cfgFile w).2 = .error .operationalError) ∧
      (∀ v, (configManager "DB_EXISTING_CONNECTION" PyVal.none cfgFile).2 =
          .ok v →
        (w = .opError →
          (sessionScope cfgFile w).2 = .error .operationalError) ∧
        (w = .otherError → (sessionScope cfgFile w).2 = .error .otherError) ∧
        (w = .ok → (sessionScope cfgFile w).2 = .ok ())) := by
  intro cfgFile w
  unfold sessionScope
  rcases hc : (configManager "DB_EXISTING_CONNECTION" PyVal.none cfgFile).2
    with e | v
  · cases e <;> cases w <;>
      exact ⟨by decide, by decide, by decide,
        fun u hu => Except.noConfusion hu⟩
  · dsimp only
    by_cases hsql : v = PyVal.str "SQLite"
    · rw [if_pos hsql]
      cases w
      · exact ⟨by decide, by decide, by decide,
          fun u hu => by exact ⟨by decide, by decide, by decide⟩⟩
      · exact ⟨by decide, by decide, by decide,
          fun u hu => by exact ⟨by decide, by decide, by decide⟩⟩
      · exact ⟨by decide, by decide, by decide,
          fun u hu => by exact ⟨by decide, by decide, by decide⟩⟩
    · rw [if_neg hsql]
      cases w
      · exact ⟨by decide, by decide, by decide,
          fun u hu => by exact ⟨by decide, by decide, by decide⟩⟩
      · exact ⟨by decide, by decide, by decide,
          fun u hu => by exact ⟨by decide, by decide, by decide⟩⟩
      · exact ⟨by decide, by decide, by decide,
          fun u hu => by exact ⟨by decide, by decide, by decide⟩⟩

/-- C9 witness: operational failure on the SQLite backend is rolled back
and re-raised. -/
theorem C9_session_scope_paths_witness :
    (sessionScope "DB_EXISTING_CONNECTION = 'SQLite'\n" Work.opError).2 =
      .error .operationalError :=
  ((C9_session_scope_paths "DB_EXISTING_CONNECTION = 'SQLite'\n"
    Work.opError).2.2.2 (PyVal.str "SQLite") (by decide)).1 rfl

/-- C4 counterexample: encoding the string `"123"` with all three flags
false does not return it unchanged — the handler first runs every string
through the literal parser, so the integer `123` comes back instead. -/
theorem C4_counterexample_string_parsed :
    typesManager (PyVal.str "123") false false false = .ok (PyVal.int 123) ∧
      typesManager (PyVal.str "123") false false false ≠
        .ok (PyVal.str "123") := by
  constructor
  · decide
  · decide

/-- C4 amended: with all three flags false the conversion returns every
non-string value unchanged; a string is instead first normalized through
the literal parser, and is returned unchanged only insofar as that parse
retains it. -/
theorem C4_identity_amended :
    (∀ v : PyVal, v.isStrKind = false →
      typesManager v false false false = .ok v) ∧
    (∀ s, typesManager (PyVal.str s) false false false = typeParser s) := by
  constructor
  · intro v h
    cases v with
    | str s => simp [PyVal.isStrKind] at h
    | bool b => rfl
    | int n => rfl
    | float t => rfl
    | dec d => rfl
    | none => rfl
  · exact fun s => typesManager_str_noflags s

/-- C4 witness: the identity on a concrete non-string value. -/
theorem C4_identity_amended_witness :
    typesManager (PyVal.int 7) false false false = .ok (PyVal.int 7) :=
  C4_identity_amended.1 (PyVal.int 7) rfl

/-- C5 counterexample: the input `It's` matches no decimal pattern and
its literal parse fails, yet decode raises (the `SyntaxError` from the
unterminated quote is not caught — only `ValueError` is) instead of
returning the string unchanged. -/
theorem C5_counterexample_syntax_error :
    decSearch ("It's".toList) = Option.none ∧
      literalEval "It's" = LE.syntaxError ∧
      typesManager (PyVal.str "It's") false false false =
        .error .syntaxError := by
  refine ⟨by decide, by decide, by decide⟩

/-- C5 amended: for a string matching no decimal-literal pattern, decode
returns the text unchanged exactly when the literal parse fails with a
`ValueError` (a syntactically valid non-literal, e.g. a bare name); when
the parse fails with a `SyntaxError`, decode raises it. -/
theorem C5_decode_failure_amended :
    ∀ s, decSearch s.toList = Option.none →
      (literalEval s = LE.valueError →
        typesManager (PyVal.str s) false false false = .ok (PyVal.str s)) ∧
      (literalEval s = LE.syntaxError →
        typesManager (PyVal.str s) false false false =
          .error .syntaxError) := by
  intro s hd
  constructor
  · intro hl
    unfold typesManager typesConverting typeParser
    dsimp only
    rw [hd, hl]
    rfl
  · intro hl
    unfold typesManager typesConverting typeParser
    dsimp only
    rw [hd, hl]
    rfl

/-- C5 witness: the bare name `plain` is retained. -/
theorem C5_decode_failure_amended_witness :
    typesManager (PyVal.str "plain") false false false =
      .ok (PyVal.str "plain") :=
  (C5_decode_failure_amended "plain" (by decide)).1 (by decide)

/-- C8 counterexample: quoting the raw input `It's` through the public
entry point does not produce a double-quoted string — the mandatory
pre-parse hits an unterminated string literal and the uncaught
`SyntaxError` propagates. -/
theorem C8_counterexample_quote_raises :
    typesManager (PyVal.str "It's") false false true = .error .syntaxError ∧
      typesManager (PyVal.str "It's") false false true ≠
        .ok (PyVal.str "\"It's\"") := by
  refine ⟨by decide, by decide⟩

/-- C8 amended: when the pre-parse of the input yields a string, quoting
wraps that parsed string in single quotes, or in double quotes when it
already contains a single quote (so the double-quote branch is reached
through an already-quoted input such as `"It's"`); the bare input `It's`
instead raises.  The input `plain` yields `'plain'`. -/
theorem C8_quote_amended :
    (∀ s v, typeParser s = .ok (PyVal.str v) →
      typesManager (PyVal.str s) false false true =
        .ok (PyVal.str (pyQuote v))) ∧
    typesManager (PyVal.str "plain") false false true =
      .ok (PyVal.str "'plain'") := by
  constructor
  · intro s v h
    unfold typesManager typesConverting
    simp [h, quoteVal]
    rfl
  · decide

/-- C8 witness: the already-quoted input containing an apostrophe takes
the double-quote branch. -/
theorem C8_quote_amended_witness :
    typesManager (PyVal.str "\"It's\"") false false true =
      .ok (PyVal.str (pyQuote "It's")) :=
  C8_quote_amended.1 "\"It's\"" "It's" (by decide)

/-- C6 counterexample: the search pattern is unanchored, so `get` on the
name `DB_NAME` against a file whose only line is named `SQLITE_DB_NAME`
returns that line's decoded value instead of absent. -/
theorem C6_counterexample_substring_match :
    (configManager "DB_NAME" PyVal.none "SQLITE_DB_NAME = 'a.db'\n").2 =
        .ok (PyVal.str "a.db") ∧
      (configManager "DB_NAME" PyVal.none "SQLITE_DB_NAME = 'a.db'\n").2 ≠
        .ok PyVal.none := by
  refine ⟨by decide, by decide⟩

/-- C6 amended: `get` never modifies the file; when the unanchored
pattern `name = value\n` occurs nowhere as a substring of the file, `get`
returns absent without raising; and when the file begins with such a
line, `get` returns the codec's decode of its value substring — but an
occurrence inside a line whose name merely ends with the requested name
also matches, as the counterexample shows. -/
theorem C6_get_unanchored_amended :
    (∀ param file, (configManager param PyVal.none file).1 = file) ∧
    (∀ param file,
      (¬ ∃ pre v rest, file.toList =
          pre ++ (param.toList ++ (" = ".toList) ++ (v ++ '\n' :: rest)) ∧
          v ≠ [] ∧ ∀ c ∈ v, c ≠ '\n') →
      (configManager param PyVal.none file).2 = .ok PyVal.none) ∧
    (∀ param (v rest : List Char), v ≠ [] → (∀ c ∈ v, c ≠ '\n') →
      (configManager param PyVal.none
          (String.mk (param.toList ++ (" = ".toList) ++ (v ++ '\n' :: rest)))).2 =
        typesManager (PyVal.str (String.mk v)) false false false) := by
  refine ⟨?_, ?_, ?_⟩
  · intro param file
    exact (C10_none_never_written param file).1
  · intro param file hno
    rcases hs : cfgSearch param.toList file.toList with _ | v
    · exact (C10_none_never_written param file).2.2 hs
    · obtain ⟨pre, rest, hfile, hvne, hnl⟩ := cfgSearch_some_decomp _ _ _ hs
      exact absurd ⟨pre, v, rest, hfile, hvne, hnl⟩ hno
  · intro param v rest hv hnl
    have hs : cfgSearch param.toList
        (String.mk (param.toList ++ (" = ".toList) ++ (v ++ '\n' :: rest))).toList =
        some v := by
      have htl : (String.mk (param.toList ++ (" = ".toList) ++
          (v ++ '\n' :: rest))).toList =
          param.toList ++ (" = ".toList) ++ (v ++ '\n' :: rest) := rfl
      rw [htl]
      exact cfgSearch_head_decomp _ _ _ hv hnl
    exact (C10_none_never_written param _).2.1 v hs

/-- C6 witness: a concrete exact-name read decodes the stored value. -/
theorem C6_get_unanchored_amended_witness :
    (configManager "B" PyVal.none
        (String.mk ("B".toList ++ (" = ".toList) ++
          ("7".toList ++ '\n' :: [])))).2 =
      typesManager (PyVal.str (String.mk ("7".toList))) false false false :=
  C6_get_unanchored_amended.2.2 "B" ("7".toList) [] (by decide) (by decide)

/-- C7 counterexample: `set` on the name `DB_NAME` against a file with no
line of that name is not a no-op — the unanchored pattern matches inside
the line named `SQLITE_DB_NAME` and its value is rewritten. -/
theorem C7_counterexample_substring_write :
    configManager "DB_NAME" (PyVal.str "newdb") "SQLITE_DB_NAME = x\n" =
        ("SQLITE_DB_NAME = 'newdb'\n", .ok PyVal.none) ∧
      (configManager "DB_NAME" (PyVal.str "newdb")
          "SQLITE_DB_NAME = x\n").1 ≠ "SQLITE_DB_NAME = x\n" := by
  refine ⟨by decide, by decide⟩

/-- C7 amended: when the unanchored pattern `name = value\n` occurs
nowhere in the file, `set` is a silent no-op returning `None`; when it
occurs, exactly the value substring of the matched (leftmost) occurrence
is replaced by the rendered new value — every byte before the match (an
arbitrary earlier portion of the file), the name and separator, the
newline and the rest of the file are all preserved.  `noStart` states
that the exhibited occurrence is the leftmost one, i.e. the one
`re.search` matches.  By the counterexample, the match may also fall
inside a line whose name merely ends with the requested name. -/
theorem C7_set_frame_amended :
    (∀ param newVal file, newVal ≠ PyVal.none →
      (¬ ∃ pre v rest, file.toList =
          pre ++ (param.toList ++ (" = ".toList) ++ (v ++ '\n' :: rest)) ∧
          v ≠ [] ∧ ∀ c ∈ v, c ≠ '\n') →
      configManager param newVal file = (file, .ok PyVal.none)) ∧
    (∀ param (pre v rest : List Char) newVal rv, v ≠ [] → (∀ c ∈ v, c ≠ '\n') →
      newVal ≠ PyVal.none → cfgRenderNew newVal = .ok rv →
      noStart (param.toList ++ (" = ".toList)) pre
        (param.toList ++ (" = ".toList) ++ (v ++ '\n' :: rest)) = true →
      configManager param newVal
          (String.mk (pre ++ (param.toList ++ (" = ".toList) ++
            (v ++ '\n' :: rest)))) =
        (String.mk (pre ++ (param.toList ++ (" = ".toList) ++
          ((pyStr rv).toList ++ '\n' :: rest))), .ok PyVal.none)) := by
  constructor
  · intro param newVal file hnv hno
    rcases hs : cfgSearch param.toList file.toList with _ | v
    · unfold configManager
      rw [hs]
    · obtain ⟨pre, rest, hfile, hvne, hnl⟩ := cfgSearch_some_decomp _ _ _ hs
      exact absurd ⟨pre, v, rest, hfile, hvne, hnl⟩ hno
  · intro param pre v rest newVal rv hv hnl hnv hrv hns
    have htl : (String.mk (pre ++ (param.toList ++ (" = ".toList) ++
        (v ++ '\n' :: rest)))).toList =
        pre ++ (param.toList ++ (" = ".toList) ++ (v ++ '\n' :: rest)) := rfl
    have hs : cfgSearch param.toList
        (String.mk (pre ++ (param.toList ++ (" = ".toList) ++
          (v ++ '\n' :: rest)))).toList = some v := by
      rw [htl]
      exact cfgSearch_interior param.toList v rest hv hnl pre hns
    unfold configManager
    rw [hs]
    dsimp only
    rw [if_neg hnv]
    rw [hrv]
    dsimp only
    rw [htl]
    have hsplit : param.toList ++ (" = ".toList) ++ (v ++ '\n' :: rest) =
        (param.toList ++ (" = ".toList) ++ v) ++ '\n' :: rest := by
      simp [List.append_assoc]
    rw [hsplit]
    have hns' : noStart (param.toList ++ (" = ".toList)) pre
        ((param.toList ++ (" = ".toList) ++ v) ++ '\n' :: rest) = true := by
      rw [← hsplit]
      exact hns
    rw [replaceFirst_interior (param.toList ++ (" = ".toList))
      (param.toList ++ (" = ".toList) ++ v) _ ('\n' :: rest)
      (isPrefixOf_append _ _)
      (by
        intro hcon
        rcases List.append_eq_nil.mp hcon with ⟨h1, _⟩
        rcases List.append_eq_nil.mp h1 with ⟨_, h2⟩
        exact absurd h2 (by decide))
      pre hns']
    have hout : param.toList ++ (" = ".toList) ++ (pyStr rv).toList ++ '\n' :: rest =
        param.toList ++ (" = ".toList) ++ ((pyStr rv).toList ++ '\n' :: rest) := by
      simp [List.append_assoc]
    rw [hout]

/-- C7 witness: a concrete in-place value replacement at an interior
match, preserving the line before the match, the name, the separator and
everything after the value. -/
theorem C7_set_frame_amended_witness :
    configManager "SQLITE_DB_NAME" (PyVal.str "config_test.db")
        (String.mk (("DB_EXISTING_CONNECTION = False\n".toList) ++
          ("SQLITE_DB_NAME".toList ++ (" = ".toList) ++
            ("'a.db'".toList ++ '\n' :: ("B = 2\n".toList))))) =
      (String.mk (("DB_EXISTING_CONNECTION = False\n".toList) ++
        ("SQLITE_DB_NAME".toList ++ (" = ".toList) ++
          ((pyStr (PyVal.str "'config_test.db'")).toList ++ '\n' ::
            ("B = 2\n".toList)))), .ok PyVal.none) :=
  C7_set_frame_amended.2 "SQLITE_DB_NAME"
    ("DB_EXISTING_CONNECTION = False\n".toList)
    ("'a.db'".toList) ("B = 2\n".toList)
    (PyVal.str "config_test.db") (PyVal.str "'config_test.db'")
    (by decide) (by decide) (by decide) (by decide) (by decide)

/-- The spec's round trip `decode(encode(v, as_string=true))`: encode
with the stringification flag, then decode the resulting text. -/
def encodeDecodeRT (v : PyVal) : Except PyErr PyVal := do
  let e ← typesManager v false true false
  typesManager e false false false

/-- Values whose printed form the literal parser maps back to themselves:
every boolean, integer and absent value; texts the parser retains;
finite floats whose repr token parses back (Python's repr guarantee);
well-formed decimals. -/
def RTSafe : PyVal → Prop
  | .str s => typeParser s = .ok (PyVal.str s)
  | .float t => typeParser t = .ok (PyVal.float t)
  | .dec d => Dec.WF d
  | _ => True

/-- C1 counterexample: the text value `"123"` does not round-trip — the
encode entry point first normalizes strings through the literal parser,
so the round trip returns the integer `123` instead of the text. -/
theorem C1_counterexample_text_not_fixed :
    encodeDecodeRT (PyVal.str "123") = .ok (PyVal.int 123) ∧
      encodeDecodeRT (PyVal.str "123") ≠ .ok (PyVal.str "123") := by
  refine ⟨by decide, by decide⟩

/-- C1 amended: `decode(encode(v, as_string=true)) = v` holds for every
boolean, integer and absent value, for every well-formed decimal, for
every float whose repr token the parser recovers, and for exactly those
texts that the literal parser retains as themselves — a text that reads
as another literal (such as `"123"`) instead round-trips to that
literal's value. -/
theorem C1_roundtrip_amended :
    ∀ v : PyVal, RTSafe v → encodeDecodeRT v = .ok v := by
  intro v h
  cases v with
  | str s =>
    have hp : typeParser s = .ok (PyVal.str s) := h
    have henc : typesManager (PyVal.str s) false true false =
        .ok (PyVal.str s) := by
      unfold typesManager typesConverting
      dsimp only
      rw [hp]
      rfl
    unfold encodeDecodeRT
    rw [henc]
    show typesManager (PyVal.str s) false false false = .ok (PyVal.str s)
    rw [typesManager_str_noflags, hp]
  | bool b => cases b <;> decide
  | int n =>
    have henc : typesManager (PyVal.int n) false true false =
        .ok (PyVal.str (String.mk (pyIntStr n))) := rfl
    unfold encodeDecodeRT
    rw [henc]
    show typesManager (PyVal.str (String.mk (pyIntStr n))) false false false =
      .ok (PyVal.int n)
    rw [typesManager_str_noflags, typeParser_pyIntStr]
  | float t =>
    have hp : typeParser t = .ok (PyVal.float t) := h
    have henc : typesManager (PyVal.float t) false true false =
        .ok (PyVal.str t) := rfl
    unfold encodeDecodeRT
    rw [henc]
    show typesManager (PyVal.str t) false false false = .ok (PyVal.float t)
    rw [typesManager_str_noflags, hp]
  | dec d =>
    have hwf : Dec.WF d := h
    have henc : typesManager (PyVal.dec d) false true false =
        .ok (PyVal.str ("Decimal('" ++ Dec.toSciString d ++ "')")) := rfl
    unfold encodeDecodeRT
    rw [henc]
    show typesManager (PyVal.str ("Decimal('" ++ Dec.toSciString d ++ "')"))
        false false false = .ok (PyVal.dec d)
    rw [typesManager_str_noflags, typeParser_decLiteral d hwf]
  | none => decide

/-- C1 witness: the decimal one-point-five round-trips exactly. -/
theorem C1_roundtrip_amended_witness :
    encodeDecodeRT (PyVal.dec ⟨false, [1, 5], -1⟩) =
      .ok (PyVal.dec ⟨false, [1, 5], -1⟩) :=
  C1_roundtrip_amended _ (show Dec.WF ⟨false, [1, 5], -1⟩ by decide)

end SCC
